import Mathlib

/-! Serial-section analysis of `mtrace-tools/sersec.hh`.

A shallow embedding of the lock life-cycle tracker (`LockManager`) and of the
statistics record (`SerialSections::SerialSectionStat`) of `sersec.hh`,
followed by theorems about them.

Conventions of the embedding.

* `timestamp_t`, `pc_t`, the lock address and the counters of the statistics
  record are 64-bit unsigned; they are natural numbers here and the
  arithmetic that the code performs on the statistics is reduced modulo `2^64`.
* `depth_` is a C `int`: its value is an integer and `depth_++`, `depth_--`
  are reduced into the range of `int` (`toInt32`), the wrap-around of the
  machine; past that range the C++ standard leaves the result open, so the
  theorems that follow a depth are stated for depths inside the range.
* The two `static int misses` counters are integers; they never pass their
  thresholds.
* `hash_map<uint64_t, LockState *>` is a finite map, represented by its
  lookup function; the pointed-to `LockState` is stored in the map directly.
* A call either returns, or ends the run through `die`, or runs into
  undefined behaviour: see `Outcome`.
-/

/-! ## Results of a call -/

/-- Modelled from the spec: `die` is declared outside `sersec.hh`; the spec
says that a fatal condition "terminates the whole run immediately", so a call
to `die` ends the computation with its message (`Outcome.die`).  `undefined`
marks an execution that has left defined C++ behaviour (dereferencing the
past-the-end iterator of a `hash_map`). -/
inductive Outcome (α : Type) where
  | ok (a : α) : Outcome α
  | die (msg : String) : Outcome α
  | undefined : Outcome α
deriving DecidableEq, Repr

/-- Sequencing of calls: the rest runs only when the first part returned. -/
def Outcome.bind {α β : Type} (x : Outcome α) (f : α → Outcome β) : Outcome β :=
  match x with
  | .ok a => f a
  | .die msg => .die msg
  | .undefined => .undefined

/-! ## Data -/

/-- The word size of `uint64_t` arithmetic. -/
def U64 : Nat := 2 ^ 64

/-- The value an `int` holds after an increment or decrement whose
mathematical result is `x`: `x` itself inside the range from `-2^31` to
`2^31 - 1`, and wrapped around modulo `2^32` outside of it. -/
def toInt32 (x : Int) : Int := (x + 2147483648) % 4294967296 - 2147483648

/-- Modelled from the spec: `struct mtrace_entry_header` is declared outside
`sersec.hh`.  The spec's LockEvent carries a timestamp (a cycle count) and a
cpu id; these are the two header fields that `sersec.hh` reads, `h.ts` and
`h.cpu`. -/
structure mtrace_entry_header where
  ts : Nat
  cpu : Nat
deriving DecidableEq, Repr

/-- Modelled from the spec: `struct mtrace_lock_entry` is declared outside
`sersec.hh`.  The spec's LockEvent has a 64-bit lock address, an operation
and an optional label string; `sersec.hh` reads them as `lock`, `op` and
`str`, next to the header `h`. -/
structure mtrace_lock_entry where
  h : mtrace_entry_header
  lock : Nat
  op : Nat
  str : String
deriving DecidableEq, Repr

/-- The record `struct SerialSection`; `end_` is the field `end`.  The types
`timestamp_t` and `pc_t` are declared outside `sersec.hh`; both are unsigned
64-bit counters (the code prints them with `%lu`). -/
structure SerialSection where
  start : Nat
  end_ : Nat
  acquire_cpu : Nat
  release_cpu : Nat
  call_pc : Nat
deriving DecidableEq, Repr

namespace LockManager

/-- The record `LockManager::LockState`; `depth_` is an `int`. -/
structure LockState where
  ss_ : SerialSection
  acquired_ts_ : Nat
  depth_ : Int
deriving DecidableEq, Repr

namespace LockState

/-- The constructor `LockState(void)`: it sets `acquired_ts_` and `depth_`
and leaves `ss_` as the storage happened to be (`uninit`). -/
def ctor (uninit : SerialSection) : LockState :=
  { ss_ := uninit, acquired_ts_ := 0, depth_ := 0 }

/-- The method `LockState::release`; `depth_--` is a decrement of an `int`. -/
def release (ls : LockState) (lock : mtrace_lock_entry) : LockState :=
  let ls1 : LockState := { ls with depth_ := toInt32 (ls.depth_ - 1) }
  if ls1.depth_ = 0 then
    { ls1 with ss_ := { ls1.ss_ with end_ := lock.h.ts, release_cpu := lock.h.cpu } }
  else
    ls1

/-- The method `LockState::acquire`; `mtrace_call_pc` is the global per-cpu
call-site table as it stands when the event is handled, and `depth_++` is an
increment of an `int`. -/
def acquire (mtrace_call_pc : Nat → Nat) (ls : LockState)
    (lock : mtrace_lock_entry) : LockState :=
  let ls1 : LockState :=
    if ls.depth_ = 0 then
      { ls with ss_ := { ls.ss_ with start := lock.h.ts,
                                     call_pc := mtrace_call_pc lock.h.cpu,
                                     acquire_cpu := lock.h.cpu } }
    else
      ls
  { ls1 with depth_ := toInt32 (ls1.depth_ + 1) }

/-- The method `LockState::acquired`. -/
def acquired (ls : LockState) (lock : mtrace_lock_entry) : LockState :=
  if ls.acquired_ts_ = 0 then
    { ls with acquired_ts_ := lock.h.ts,
              ss_ := { ls.ss_ with start := lock.h.ts, acquire_cpu := lock.h.cpu } }
  else
    ls

end LockState

/-- The type `LockStateTable`: the lookup function of the hash map. -/
abbrev LockStateTable := Nat → Option LockState

namespace LockStateTable

/-- The empty table. -/
def empty : LockStateTable := fun _ => none

/-- Overwrite the entry of `k` (a write through the stored pointer). -/
def set (m : LockStateTable) (k : Nat) (v : LockState) : LockStateTable :=
  fun x => if x = k then some v else m x

/-- The call `state_.insert(pair(k, v))`: the table afterwards and the flag
`r.second`, which is false when `k` was present (then nothing is stored). -/
def insert (m : LockStateTable) (k : Nat) (v : LockState) : LockStateTable × Bool :=
  match m k with
  | some _ => (m, false)
  | none => (set m k v, true)

/-- The call `state_.erase(it)` for the iterator at key `k`. -/
def erase (m : LockStateTable) (k : Nat) : LockStateTable :=
  fun x => if x = k then none else m x

end LockStateTable

end LockManager

/-- The data members of a `LockManager` object (`stack_` is never used). -/
structure LockManager where
  state_ : LockManager.LockStateTable

/-- The two function-local `static int misses` variables of
`LockManager::release` and `LockManager::acquired`.  Being static, there is
one copy of each for the whole process, whatever the number of `LockManager`
objects. -/
structure Statics where
  release_misses : Int
  acquired_misses : Int
deriving DecidableEq, Repr

/-- The statics at program start (zero-initialised). -/
def Statics.zero : Statics := { release_misses := 0, acquired_misses := 0 }

namespace LockManager

/-- A `LockManager` as its constructor leaves it. -/
def ctor : LockManager := { state_ := LockStateTable.empty }

/-- The method `LockManager::release`.  The result `some ss` stands for
`return true` with `*ss` written, `none` for `return false`.

When the lock is not in the table the code counts a miss and dies at the
twentieth; below that it does not return but goes on to `it->second` with
`it == state_.end()`. -/
def release (g : Statics) (lm : LockManager) (lock : mtrace_lock_entry) :
    Outcome (Statics × LockManager × Option SerialSection) :=
  match lm.state_ lock.lock with
  | none =>
    let g1 : Statics := { g with release_misses := g.release_misses + 1 }
    if g1.release_misses ≥ 20 then
      .die "LockManager: released too many unheld locks"
    else
      .undefined
  | some ls =>
    let ls1 := ls.release lock
    if ls1.depth_ = 0 then
      .ok (g, { state_ := lm.state_.erase lock.lock }, some ls1.ss_)
    else
      .ok (g, { state_ := lm.state_.set lock.lock ls1 }, none)

/-- The method `LockManager::acquire`; `uninit` is the content of the fresh
allocation that `new LockState()` does not overwrite. -/
def acquire (mtrace_call_pc : Nat → Nat) (uninit : SerialSection)
    (lm : LockManager) (lock : mtrace_lock_entry) : Outcome LockManager :=
  match lm.state_ lock.lock with
  | none =>
    let ls := LockState.ctor uninit
    let r := lm.state_.insert lock.lock ls
    if !r.2 then
      .die "acquire: insert failed"
    else
      .ok { state_ := r.1.set lock.lock (ls.acquire mtrace_call_pc lock) }
  | some ls =>
    .ok { state_ := lm.state_.set lock.lock (ls.acquire mtrace_call_pc lock) }

/-- The method `LockManager::acquired`. -/
def acquired (g : Statics) (lm : LockManager) (lock : mtrace_lock_entry) :
    Outcome (Statics × LockManager) :=
  match lm.state_ lock.lock with
  | none =>
    let g1 : Statics := { g with acquired_misses := g.acquired_misses + 1 }
    if g1.acquired_misses ≥ 10 then
      .die "acquired: acquired too many missing locks"
    else
      .ok (g1, lm)
  | some ls =>
    .ok (g, { state_ := lm.state_.set lock.lock (ls.acquired lock) })

end LockManager

/-- One call on a `LockManager`, with what the call reads from outside the
object: the call-site table and the fresh allocation for `acquire`. -/
inductive TrackerCall where
  | acquire (mtrace_call_pc : Nat → Nat) (uninit : SerialSection)
      (lock : mtrace_lock_entry) : TrackerCall
  | acquired (lock : mtrace_lock_entry) : TrackerCall
  | release (lock : mtrace_lock_entry) : TrackerCall

/-- Perform the calls in order on one `LockManager`; the result lists what
each `release` returned, in order. -/
def LockManager.feed (g : Statics) (lm : LockManager) :
    List TrackerCall → Outcome (Statics × LockManager × List (Option SerialSection))
  | [] => .ok (g, lm, [])
  | .acquire pc u l :: cs =>
    (LockManager.acquire pc u lm l).bind fun lm1 => LockManager.feed g lm1 cs
  | .acquired l :: cs =>
    (LockManager.acquired g lm l).bind fun r => LockManager.feed r.1 r.2 cs
  | .release l :: cs =>
    (LockManager.release g lm l).bind fun r =>
      (LockManager.feed r.1 r.2.1 cs).bind fun r2 =>
        .ok (r2.1, r2.2.1, r.2.2 :: r2.2.2)

/-- What an `acquire` call reads: the call-site table at that moment, the
fresh allocation, and the event. -/
abbrev AcquireArgs := (Nat → Nat) × SerialSection × mtrace_lock_entry

/-- A run of `acquire` calls. -/
def acquireCalls (as : List AcquireArgs) : List TrackerCall :=
  as.map fun x => TrackerCall.acquire x.1 x.2.1 x.2.2

/-- A run of `release` calls. -/
def releaseCalls (rs : List mtrace_lock_entry) : List TrackerCall :=
  rs.map TrackerCall.release

/-- A matched, un-nested pair: an `acquire` call and the `release` event
that follows it. -/
abbrev LockPair := AcquireArgs × mtrace_lock_entry

/-- The calls of a sequence of un-nested pairs: acquire, release, acquire,
release, ... -/
def pairCalls : List LockPair → List TrackerCall
  | [] => []
  | p :: ps => TrackerCall.acquire p.1.1 p.1.2.1 p.1.2.2 :: TrackerCall.release p.2 :: pairCalls ps

/-- The section that spans a pair: from the acquire event to the release
event, with the call site read from the table at the acquire. -/
def pairSection (p : LockPair) : SerialSection :=
  { start := p.1.2.2.h.ts, end_ := p.2.h.ts, acquire_cpu := p.1.2.2.h.cpu,
    release_cpu := p.2.h.cpu, call_pc := p.1.1 p.1.2.2.h.cpu }

/-- A run of `acquired` calls. -/
def acquiredCalls (qs : List mtrace_lock_entry) : List TrackerCall :=
  qs.map TrackerCall.acquired

/-- A method call on one `LockState` object. -/
inductive LockStateOp where
  | acquire (mtrace_call_pc : Nat → Nat) (lock : mtrace_lock_entry) : LockStateOp
  | acquired (lock : mtrace_lock_entry) : LockStateOp
  | release (lock : mtrace_lock_entry) : LockStateOp

/-- Perform one method call on a `LockState` object. -/
def LockManager.LockState.apply (ls : LockManager.LockState) :
    LockStateOp → LockManager.LockState
  | .acquire pc l => ls.acquire pc l
  | .acquired l => ls.acquired l
  | .release l => ls.release l

/-- Perform method calls in order on a `LockState` object: what happens to
the object during its life, between `new` and `delete`. -/
def LockManager.LockState.applyOps (ls : LockManager.LockState) (ops : List LockStateOp) :
    LockManager.LockState :=
  ops.foldl LockManager.LockState.apply ls

/-- The state of lock `id` after the calls `cs` on the manager `lm`, when
they all return. -/
def LockManager.stateAfter (g : Statics) (lm : LockManager) (cs : List TrackerCall)
    (id : Nat) : Option LockManager.LockState :=
  match LockManager.feed g lm cs with
  | .ok r => r.2.1.state_ id
  | .die _ => none
  | .undefined => none

/-- Two `LockManager` objects in one process: the calls `csA` on the first,
then the calls `csB` on the second.  The statics are those of the process,
so the second run starts with the statics the first run left. -/
def LockManager.feedTwo (g : Statics) (lmA lmB : LockManager) (csA csB : List TrackerCall) :
    Outcome (Statics × LockManager × LockManager) :=
  (LockManager.feed g lmA csA).bind fun rA =>
    (LockManager.feed rA.1 lmB csB).bind fun rB => .ok (rB.1, rA.2.1, rB.2.1)

/-! ## The statistics record -/

namespace SerialSections

/-- The record `SerialSections::SerialSectionStat`. -/
structure SerialSectionStat where
  lock_id : Nat
  obj_id : Nat
  name : String
  ts_cycles : Nat
  acquires : Nat
  mismatches : Nat
deriving DecidableEq, Repr

namespace SerialSectionStat

/-- The constructor `SerialSectionStat(void)`. -/
def ctor : SerialSectionStat :=
  { lock_id := 0, obj_id := 0, name := "", ts_cycles := 0, acquires := 0, mismatches := 0 }

/-- The method `SerialSectionStat::add`; the three updates are `uint64_t`
operations. -/
def add (st : SerialSectionStat) (ss : SerialSection) : Outcome SerialSectionStat :=
  if ss.acquire_cpu ≠ ss.release_cpu then
    .ok { st with mismatches := (st.mismatches + 1) % U64 }
  else if ss.end_ < ss.start then
    .die "SerialSections::add %lu < %lu"
  else
    .ok { st with ts_cycles := (st.ts_cycles + (ss.end_ - ss.start)) % U64,
                  acquires := (st.acquires + 1) % U64 }

/-- The method `SerialSectionStat::init`; `object_id` is `object->id_`. -/
def init (st : SerialSectionStat) (object_id : Nat) (l : mtrace_lock_entry) :
    SerialSectionStat :=
  { st with lock_id := l.lock, obj_id := object_id, name := l.str }

/-- Apply `add` to the sections in order, stopping at the first call that
does not return. -/
def addAll (st : SerialSectionStat) : List SerialSection → Outcome SerialSectionStat
  | [] => .ok st
  | ss :: rest => (st.add ss).bind fun st1 => addAll st1 rest

/-- The sections whose acquiring and releasing cpu are the same. -/
def sameCpu (l : List SerialSection) : List SerialSection :=
  l.filter fun ss => ss.acquire_cpu = ss.release_cpu

/-- The sections handed from one cpu to another. -/
def crossCpu (l : List SerialSection) : List SerialSection :=
  l.filter fun ss => ss.acquire_cpu ≠ ss.release_cpu

/-- The sum of `end - start` over the sections of `l`, as a natural number. -/
def cycles (l : List SerialSection) : Nat :=
  (l.map fun ss => ss.end_ - ss.start).sum

end SerialSectionStat

end SerialSections

/-! ## Keys of the statistics map -/

namespace SerialSections

/-- The record `SerialSections::SerialSectionKey`. -/
structure SerialSectionKey where
  lock_id : Nat
  obj_id : Nat
deriving DecidableEq, Repr

/-- The functor `SerialSections::SerialEq`. -/
def SerialEq (s1 s2 : SerialSectionKey) : Bool :=
  (s1.lock_id == s2.lock_id) && (s1.obj_id == s2.obj_id)

/-- The operation `x += y` on `uint64_t`. -/
def add64 (x y : Nat) : Nat := (x + y) % U64

/-- The operation `x -= y` on `uint64_t`. -/
def sub64 (x y : Nat) : Nat := (x % U64 + (U64 - y % U64)) % U64

/-- The expression `x << n` on `uint64_t`. -/
def shl64 (x n : Nat) : Nat := (x <<< n) % U64

/-- The macro `mix64(a,b,c)`, line by line; the result is the three
variables after the twelve lines. -/
def mix64 (a b c : Nat) : Nat × Nat × Nat :=
  let a := sub64 a b; let a := sub64 a c; let a := a ^^^ (c >>> 43)
  let b := sub64 b c; let b := sub64 b a; let b := b ^^^ (shl64 a 9)
  let c := sub64 c a; let c := sub64 c b; let c := c ^^^ (b >>> 8)
  let a := sub64 a b; let a := sub64 a c; let a := a ^^^ (c >>> 38)
  let b := sub64 b c; let b := sub64 b a; let b := b ^^^ (shl64 a 23)
  let c := sub64 c a; let c := sub64 c b; let c := c ^^^ (b >>> 5)
  let a := sub64 a b; let a := sub64 a c; let a := a ^^^ (c >>> 35)
  let b := sub64 b c; let b := sub64 b a; let b := b ^^^ (shl64 a 49)
  let c := sub64 c a; let c := sub64 c b; let c := c ^^^ (b >>> 11)
  let a := sub64 a b; let a := sub64 a c; let a := a ^^^ (c >>> 12)
  let b := sub64 b c; let b := sub64 b a; let b := b ^^^ (shl64 a 18)
  let c := sub64 c a; let c := sub64 c b; let c := c ^^^ (b >>> 22)
  (a, b, c)

/-- The variables of `SerialHash::operator()` when the `while` loop is left:
the accumulators, the words still ahead of `k` (there are `len` of them) and
the number of times the loop body has run. -/
structure HashLoopState where
  a : Nat
  b : Nat
  c : Nat
  k : List Nat
  rounds : Nat
deriving DecidableEq, Repr

/-- The loop `while (len >= 3)` of `SerialHash::operator()`: each round
consumes three words. -/
def hashLoop (a b c : Nat) (rounds : Nat) : List Nat → HashLoopState
  | k0 :: k1 :: k2 :: rest =>
    let m := mix64 (add64 a k0) (add64 b k1) (add64 c k2)
    hashLoop m.1 m.2.1 m.2.2 (rounds + 1) rest
  | k => { a := a, b := b, c := c, k := k, rounds := rounds }

/-- The body of `SerialHash::operator()` on the words `k[0], k[1], ...` of
the key, `length` of them: the assertion, the loop, `c += length`, the
`switch` with its fall-through, the final `mix64`, and `return c`. -/
def hashWords (k : List Nat) : Outcome Nat :=
  let length := k.length
  if length ≠ 2 then
    .die "assert(length == 2)"
  else
    let st := hashLoop 0xdeadbeef 0xdeadbeef 0x9e3779b97f4a7c13 0 k
    let c := add64 st.c length
    let ab : Nat × Nat :=
      match st.k with
      | [k0, k1] => (add64 st.a k0, add64 st.b k1)
      | [k0] => (add64 st.a k0, st.b)
      | _ => (st.a, st.b)
    .ok (mix64 ab.1 ab.2 c).2.2

/-- The functor `SerialSections::SerialHash`: the key is read as
`sizeof(s) / sizeof(uintptr_t)` words; with 64-bit words these are the two
fields, `lock_id` first. -/
def SerialHash (s : SerialSectionKey) : Outcome Nat :=
  hashWords [s.lock_id, s.obj_id]

/-- The type of `stat_`: the lookup function of the hash map. -/
abbrev StatTable := SerialSectionKey → Option SerialSectionStat

/-- The empty statistics map. -/
def StatTable.empty : StatTable := fun _ => none

/-- Store `v` under `k`: afterwards every key that `SerialEq` equates with
`k` finds `v`. -/
def StatTable.set (m : StatTable) (k : SerialSectionKey) (v : SerialSectionStat) :
    StatTable :=
  fun x => if SerialEq x k then some v else m x

end SerialSections

/-! ## The handler -/

/-- Modelled from the spec: `MtraceObject` is declared outside `sersec.hh`.
The spec's OwningObject is `{object_id, display_name}`; `sersec.hh` reads
the field `id_`. -/
structure MtraceObject where
  id_ : Nat
  name_ : String
deriving DecidableEq, Repr

/-- The values of the enumerators `mtrace_lockop_release`,
`mtrace_lockop_acquire` and `mtrace_lockop_acquired`, which are declared
outside `sersec.hh`: any three values that differ, as the `case` labels of
one `switch` must. -/
structure LockOpCodes where
  release : Nat
  acquire : Nat
  acquired : Nat
  release_ne_acquire : release ≠ acquire
  release_ne_acquired : release ≠ acquired
  acquire_ne_acquired : acquire ≠ acquired

/-- What `SerialSections::handle` reads from outside the object when it
handles one entry: the flag `mtrace_enable.access.value`, the label
directory `mtrace_label_map.lower_bound` (modelled from the spec:
`lookup(address) -> Option<{object_id, display_name}>`), the call-site table
`mtrace_call_pc`, and the content of a fresh `LockState` allocation. -/
structure HandleEnv where
  mtrace_enable : Nat
  mtrace_label_map : Nat → Option MtraceObject
  mtrace_call_pc : Nat → Nat
  uninit : SerialSection

/-- The data members of a `SerialSections` object. -/
structure SerialSections where
  lock_manager_ : LockManager
  stat_ : SerialSections.StatTable

/-- How a call of `SerialSections::handle` ends: it returns, or the run is
ended by `die`, or the execution is undefined.  The first two carry the
statics and the object as they are at that moment. -/
inductive HandleOutcome where
  | returned (g : Statics) (s : SerialSections) : HandleOutcome
  | died (msg : String) (g : Statics) (s : SerialSections) : HandleOutcome
  | undefined : HandleOutcome

namespace SerialSections

/-- A `SerialSections` object as its constructor leaves it. -/
def ctor : SerialSections := { lock_manager_ := LockManager.ctor, stat_ := StatTable.empty }

/-- The `release` case of `SerialSections::handle` after
`lock_manager_.release` has returned true with the section `ss`: the lookup
in the label directory, the key, the lookup or creation of the statistics
record, and `add`. -/
def handleSection (env : HandleEnv) (g : Statics) (s : SerialSections)
    (l : mtrace_lock_entry) (ss : SerialSection) : HandleOutcome :=
  match env.mtrace_label_map l.lock with
  | none => .died "SerialSections::handle: missing %lx" g s
  | some object =>
    let key : SerialSectionKey := { lock_id := l.lock, obj_id := object.id_ }
    let stat1 : StatTable :=
      match s.stat_ key with
      | none => s.stat_.set key (SerialSectionStat.ctor.init object.id_ l)
      | some _ => s.stat_
    match stat1 key with
    | none => .undefined
    | some st =>
      match st.add ss with
      | .ok st1 => .returned g { s with stat_ := stat1.set key st1 }
      | .die msg => .died msg g { s with stat_ := stat1 }
      | .undefined => .undefined

/-- The method `SerialSections::handle` on a lock entry.  When a call into
the `LockManager` ends the run, the statics are those of that moment: the
miss has been counted. -/
def handle (ops : LockOpCodes) (env : HandleEnv) (g : Statics) (s : SerialSections)
    (l : mtrace_lock_entry) : HandleOutcome :=
  if env.mtrace_enable = 0 then
    .returned g s
  else if l.op = ops.release then
    match LockManager.release g s.lock_manager_ l with
    | .ok (g1, lm1, some ss) => handleSection env g1 { s with lock_manager_ := lm1 } l ss
    | .ok (g1, lm1, none) => .returned g1 { s with lock_manager_ := lm1 }
    | .die msg => .died msg { g with release_misses := g.release_misses + 1 } s
    | .undefined => .undefined
  else if l.op = ops.acquire then
    match LockManager.acquire env.mtrace_call_pc env.uninit s.lock_manager_ l with
    | .ok lm1 => .returned g { s with lock_manager_ := lm1 }
    | .die msg => .died msg g s
    | .undefined => .undefined
  else if l.op = ops.acquired then
    match LockManager.acquired g s.lock_manager_ l with
    | .ok (g1, lm1) => .returned g1 { s with lock_manager_ := lm1 }
    | .die msg => .died msg { g with acquired_misses := g.acquired_misses + 1 } s
    | .undefined => .undefined
  else
    .died "SerialSections::handle: bad op" g s

/-- Handle the entries in order, each with what is outside the object at
that moment; stop at the first call that does not return. -/
def handleAll (ops : LockOpCodes) (g : Statics) (s : SerialSections) :
    List (HandleEnv × mtrace_lock_entry) → HandleOutcome
  | [] => .returned g s
  | e :: es =>
    match handle ops e.1 g s e.2 with
    | .returned g1 s1 => handleAll ops g1 s1 es
    | .died msg g1 s1 => .died msg g1 s1
    | .undefined => .undefined

end SerialSections

/-- Example op codes: acquire 1, release 2, acquired 3. -/
def demoOps : LockOpCodes :=
  { release := 2, acquire := 1, acquired := 3,
    release_ne_acquire := by decide, release_ne_acquired := by decide,
    acquire_ne_acquired := by decide }

/-- An example environment: tracing enabled, the label directory `labels`,
call-site table `cpu ↦ 1000 + cpu`. -/
def demoEnv (labels : Nat → Option MtraceObject) : HandleEnv :=
  { mtrace_enable := 1, mtrace_label_map := labels,
    mtrace_call_pc := fun cpu => 1000 + cpu, uninit := ⟨0, 0, 0, 0, 0⟩ }

/-- The record stored under `key` after the entries `es` have been handled,
when every call returned. -/
def SerialSections.statAfter (ops : LockOpCodes) (g : Statics) (s : SerialSections)
    (es : List (HandleEnv × mtrace_lock_entry)) (key : SerialSections.SerialSectionKey) :
    Option SerialSections.SerialSectionStat :=
  match SerialSections.handleAll ops g s es with
  | .returned _ s1 => s1.stat_ key
  | .died _ _ _ => none
  | .undefined => none

/-! ## Views of a sequence of tracker calls -/

/-- The lock a call is about. -/
def TrackerCall.lock : TrackerCall → Nat
  | .acquire _ _ l => l.lock
  | .acquired l => l.lock
  | .release l => l.lock

/-- The timestamp of the event of a call. -/
def TrackerCall.ts : TrackerCall → Nat
  | .acquire _ _ l => l.h.ts
  | .acquired l => l.h.ts
  | .release l => l.h.ts

/-- The nesting depth of lock `id` after the calls `cs`: the number of
acquire calls for `id` minus the number of release calls for `id`. -/
def nesting (id : Nat) : List TrackerCall → Int
  | [] => 0
  | .acquire _ _ l :: cs => (if l.lock = id then 1 else 0) + nesting id cs
  | .acquired _ :: cs => nesting id cs
  | .release l :: cs => (if l.lock = id then -1 else 0) + nesting id cs

/-- The depth the tracker holds for lock `id`: the `depth_` of its state, or
0 when it has no state. -/
def LockManager.depthOf (lm : LockManager) (id : Nat) : Int :=
  match lm.state_ id with
  | none => 0
  | some ls => ls.depth_

/-- An example trace: lock 5 is acquired at 10 and again at 20, lock 7 is
acquired at 30, lock 5 is released at 40 and lock 7 at 50. -/
def demoCalls : List TrackerCall :=
  [TrackerCall.acquire (fun _ => 0) ⟨0, 0, 0, 0, 0⟩ ⟨⟨10, 0⟩, 5, 0, ""⟩,
   TrackerCall.acquire (fun _ => 0) ⟨0, 0, 0, 0, 0⟩ ⟨⟨20, 0⟩, 5, 0, ""⟩,
   TrackerCall.acquire (fun _ => 0) ⟨0, 0, 0, 0, 0⟩ ⟨⟨30, 1⟩, 7, 0, ""⟩,
   TrackerCall.release ⟨⟨40, 0⟩, 5, 0, ""⟩,
   TrackerCall.release ⟨⟨50, 1⟩, 7, 0, ""⟩]

/-- What the release calls of `cs` return, in order, when every call of `cs`
returns; otherwise how the run ends. -/
def LockManager.releaseResults (g : Statics) (lm : LockManager) (cs : List TrackerCall) :
    Outcome (List (Option SerialSection)) :=
  (LockManager.feed g lm cs).bind fun r => .ok r.2.2

/-- An example trace with noise: nine `acquired` events for lock 4, which is
never requested, then for lock 5 an `acquired` event before its request, its
acquire at 10 and its release at 20. -/
def noisyCalls : List TrackerCall :=
  acquiredCalls (List.replicate 9 ⟨⟨1, 0⟩, 4, 0, ""⟩) ++
    [TrackerCall.acquired ⟨⟨2, 0⟩, 5, 0, ""⟩,
     TrackerCall.acquire (fun _ => 0) ⟨0, 0, 0, 0, 0⟩ ⟨⟨10, 0⟩, 5, 0, ""⟩,
     TrackerCall.release ⟨⟨20, 0⟩, 5, 0, ""⟩]

/-- The calls that are left when the events on lock `A` are taken out. -/
def withoutLock (A : Nat) (cs : List TrackerCall) : List TrackerCall :=
  cs.filter fun c => c.lock ≠ A

/-- The results of the release calls (`outs`, one per release call of `cs`,
in order) that are left when the releases of lock `A` are taken out. -/
def outputsWithout (A : Nat) : List TrackerCall → List (Option SerialSection) →
    List (Option SerialSection)
  | .release l :: cs, o :: outs =>
    if l.lock ≠ A then o :: outputsWithout A cs outs else outputsWithout A cs outs
  | .release _ :: _, [] => []
  | .acquire _ _ _ :: cs, outs => outputsWithout A cs outs
  | .acquired _ :: cs, outs => outputsWithout A cs outs
  | [], _ => []

/-! ## Table lemmas -/

namespace LockManager.LockStateTable

theorem set_same (m : LockStateTable) (k : Nat) (v : LockState) : (set m k v) k = some v := by
  simp [set]

theorem set_other (m : LockStateTable) (k x : Nat) (v : LockState) (h : x ≠ k) :
    (set m k v) x = m x := by
  simp [set, h]

theorem erase_same (m : LockStateTable) (k : Nat) : (erase m k) k = none := by
  simp [erase]

theorem erase_other (m : LockStateTable) (k x : Nat) (h : x ≠ k) : (erase m k) x = m x := by
  simp [erase, h]

theorem set_eq_self (m : LockStateTable) (k : Nat) (v : LockState) (h : m k = some v) :
    set m k v = m := by
  funext x
  by_cases hx : x = k
  · subst hx; simp [set, h]
  · simp [set, hx]

theorem set_set (m : LockStateTable) (k : Nat) (v w : LockState) :
    set (set m k v) k w = set m k w := by
  funext x
  by_cases hx : x = k <;> simp [set, hx]

theorem erase_set (m : LockStateTable) (k : Nat) (v : LockState) :
    erase (set m k v) k = erase m k := by
  funext x
  by_cases hx : x = k <;> simp [set, erase, hx]

theorem erase_eq_self (m : LockStateTable) (k : Nat) (h : m k = none) : erase m k = m := by
  funext x
  by_cases hx : x = k
  · subst hx; simp [erase, h]
  · simp [erase, hx]

end LockManager.LockStateTable

/-! ## The range of `int` -/

theorem toInt32_of_range (x : Int) (hlo : -2147483648 ≤ x) (hhi : x < 2147483648) :
    toInt32 x = x := by
  unfold toInt32
  omega

theorem toInt32_zero : toInt32 0 = 0 := by decide

theorem toInt32_one : toInt32 1 = 1 := by decide

/-- Past the top of the range the increment wraps around to the bottom, and
past the bottom the decrement wraps around to the top. -/
theorem toInt32_wraps :
    toInt32 (2147483647 + 1) = -2147483648 ∧ toInt32 (-2147483648 - 1) = 2147483647 := by
  decide

/-! ## Single calls on a `LockManager` -/

namespace LockManager

theorem acquire_fresh (pc : Nat → Nat) (u : SerialSection) (lm : LockManager)
    (l : mtrace_lock_entry) (h : lm.state_ l.lock = none) :
    acquire pc u lm l = .ok { state_ := (lm.state_.set l.lock
      { ss_ := { u with start := l.h.ts, call_pc := pc l.h.cpu, acquire_cpu := l.h.cpu },
        acquired_ts_ := 0, depth_ := 1 }) } := by
  simp [acquire, h, LockStateTable.insert, LockState.ctor, LockState.acquire,
    LockStateTable.set_set, toInt32_one]

theorem acquire_held (pc : Nat → Nat) (u : SerialSection) (lm : LockManager)
    (l : mtrace_lock_entry) (ls : LockState) (h : lm.state_ l.lock = some ls)
    (hd : ls.depth_ ≠ 0) (hlo : -2147483648 ≤ ls.depth_) (hhi : ls.depth_ < 2147483647) :
    acquire pc u lm l
      = .ok { state_ := lm.state_.set l.lock { ls with depth_ := ls.depth_ + 1 } } := by
  have hw : toInt32 (ls.depth_ + 1) = ls.depth_ + 1 :=
    toInt32_of_range _ (by omega) (by omega)
  simp [acquire, h, LockState.acquire, hd, hw]

theorem release_nested (g : Statics) (lm : LockManager) (l : mtrace_lock_entry)
    (ls : LockState) (h : lm.state_ l.lock = some ls) (hd : ls.depth_ ≠ 1)
    (hlo : -2147483648 < ls.depth_) (hhi : ls.depth_ < 2147483648) :
    release g lm l
      = .ok (g, { state_ := lm.state_.set l.lock { ls with depth_ := ls.depth_ - 1 } },
          none) := by
  have hw : toInt32 (ls.depth_ - 1) = ls.depth_ - 1 :=
    toInt32_of_range _ (by omega) (by omega)
  have hd0 : ¬ (ls.depth_ - 1 = 0) := by omega
  simp [release, h, LockState.release, hw, hd0]

theorem release_last (g : Statics) (lm : LockManager) (l : mtrace_lock_entry)
    (ls : LockState) (h : lm.state_ l.lock = some ls) (hd : ls.depth_ = 1) :
    release g lm l
      = .ok (g, { state_ := lm.state_.erase l.lock },
          some { ls.ss_ with end_ := l.h.ts, release_cpu := l.h.cpu }) := by
  simp [release, h, LockState.release, hd, toInt32_zero]

theorem acquired_held (g : Statics) (lm : LockManager) (l : mtrace_lock_entry)
    (ls : LockState) (h : lm.state_ l.lock = some ls) :
    acquired g lm l = .ok (g, { state_ := lm.state_.set l.lock (ls.acquired l) }) := by
  simp [acquired, h]

end LockManager

/-! ## Sequences of calls -/

theorem Outcome.bind_ok {α β : Type} (a : α) (f : α → Outcome β) :
    (Outcome.ok a).bind f = f a := rfl

theorem Outcome.bind_die {α β : Type} (msg : String) (f : α → Outcome β) :
    (Outcome.die msg : Outcome α).bind f = .die msg := rfl

theorem Outcome.bind_undefined {α β : Type} (f : α → Outcome β) :
    (Outcome.undefined : Outcome α).bind f = .undefined := rfl

namespace LockManager

theorem feed_nil (g : Statics) (lm : LockManager) : feed g lm [] = .ok (g, lm, []) := rfl

theorem feed_acquire (g : Statics) (lm : LockManager) (pc : Nat → Nat) (u : SerialSection)
    (l : mtrace_lock_entry) (cs : List TrackerCall) :
    feed g lm (.acquire pc u l :: cs) = (acquire pc u lm l).bind fun lm1 => feed g lm1 cs := rfl

theorem feed_acquired (g : Statics) (lm : LockManager) (l : mtrace_lock_entry)
    (cs : List TrackerCall) :
    feed g lm (.acquired l :: cs) = (acquired g lm l).bind fun r => feed r.1 r.2 cs := rfl

theorem feed_release (g : Statics) (lm : LockManager) (l : mtrace_lock_entry)
    (cs : List TrackerCall) :
    feed g lm (.release l :: cs)
      = (release g lm l).bind fun r =>
          (feed r.1 r.2.1 cs).bind fun r2 => .ok (r2.1, r2.2.1, r.2.2 :: r2.2.2) := rfl

theorem feed_append (cs1 cs2 : List TrackerCall) (g : Statics) (lm : LockManager) :
    feed g lm (cs1 ++ cs2)
      = (feed g lm cs1).bind fun r =>
          (feed r.1 r.2.1 cs2).bind fun r2 => .ok (r2.1, r2.2.1, r.2.2 ++ r2.2.2) := by
  induction cs1 generalizing g lm with
  | nil =>
    rw [List.nil_append, feed_nil, Outcome.bind_ok]
    cases feed g lm cs2 <;> rfl
  | cons c cs ih =>
    cases c with
    | acquire pc u l =>
      rw [List.cons_append, feed_acquire, feed_acquire]
      cases acquire pc u lm l with
      | ok lm1 => rw [Outcome.bind_ok, Outcome.bind_ok]; exact ih g lm1
      | die m => rfl
      | undefined => rfl
    | acquired l =>
      rw [List.cons_append, feed_acquired, feed_acquired]
      cases acquired g lm l with
      | ok r => rw [Outcome.bind_ok, Outcome.bind_ok]; exact ih r.1 r.2
      | die m => rfl
      | undefined => rfl
    | release l =>
      rw [List.cons_append, feed_release, feed_release]
      cases release g lm l with
      | ok r =>
        rw [Outcome.bind_ok, Outcome.bind_ok, ih r.1 r.2.1]
        cases feed r.1 r.2.1 cs with
        | ok r1 =>
          rw [Outcome.bind_ok, Outcome.bind_ok, Outcome.bind_ok]
          cases feed r1.1 r1.2.1 cs2 with
          | ok r2 => simp [Outcome.bind_ok]
          | die m => rfl
          | undefined => rfl
        | die m => rfl
        | undefined => rfl
      | die m => rfl
      | undefined => rfl

theorem feed_acquires_held (g : Statics) (id : Nat) (as : List AcquireArgs)
    (has : ∀ x ∈ as, x.2.2.lock = id) (lm : LockManager) (ls : LockState) (d : Int)
    (h : lm.state_ id = some ls) (hdep : ls.depth_ = d) (hd : 0 < d)
    (hhi : d + as.length < 2147483648) :
    feed g lm (acquireCalls as)
      = .ok (g, { state_ := lm.state_.set id { ls with depth_ := d + as.length } },
          []) := by
  induction as generalizing lm ls d with
  | nil =>
    have hls : ({ ls with depth_ := d + ([] : List AcquireArgs).length } : LockState)
        = ls := by
      cases ls
      simp only at hdep
      simp [hdep]
    rw [hls, LockStateTable.set_eq_self _ _ _ h]
    rfl
  | cons x xs ih =>
    have hx : x.2.2.lock = id := has x (List.mem_cons_self _ _)
    have hxs : ∀ y ∈ xs, y.2.2.lock = id := fun y hy => has y (List.mem_cons_of_mem _ hy)
    have hne : ls.depth_ ≠ 0 := by omega
    have hlen : d + 1 + (xs.length : Int) = d + ((x :: xs).length : Int) := by
      simp only [List.length_cons]; push_cast; ring
    have hhi1 : d + 1 + (xs.length : Int) < 2147483648 := by rw [hlen]; exact hhi
    have h1 : lm.state_ x.2.2.lock = some ls := by rw [hx]; exact h
    show feed g lm (TrackerCall.acquire x.1 x.2.1 x.2.2 :: acquireCalls xs) = _
    rw [feed_acquire, acquire_held _ _ _ _ ls h1 hne (by omega) (by omega), Outcome.bind_ok, hx]
    rw [ih hxs { state_ := lm.state_.set id { ls with depth_ := ls.depth_ + 1 } }
      { ls with depth_ := ls.depth_ + 1 } (d + 1) (LockStateTable.set_same _ _ _)
      (by show ls.depth_ + 1 = d + 1; rw [hdep]) (by omega) hhi1]
    rw [LockStateTable.set_set]
    simp only [hlen]

theorem feed_releases_nested (g : Statics) (id : Nat) (rs : List mtrace_lock_entry)
    (hrs : ∀ x ∈ rs, x.lock = id) (lm : LockManager) (ls : LockState)
    (h : lm.state_ id = some ls) (hd : ls.depth_ = rs.length + 1)
    (hhi : (rs.length : Int) + 1 < 2147483648) :
    feed g lm (releaseCalls rs)
      = .ok (g, { state_ := lm.state_.set id { ls with depth_ := 1 } },
          List.replicate rs.length none) := by
  induction rs generalizing lm ls with
  | nil =>
    have hls : ({ ls with depth_ := 1 } : LockState) = ls := by
      cases ls; simp at hd; simp [hd]
    rw [hls, LockStateTable.set_eq_self _ _ _ h]
    rfl
  | cons x xs ih =>
    have hx : x.lock = id := hrs x (List.mem_cons_self _ _)
    have hxs : ∀ y ∈ xs, y.lock = id := fun y hy => hrs y (List.mem_cons_of_mem _ hy)
    have hcast : (((x :: xs).length : Nat) : Int) = (xs.length : Int) + 1 := by
      simp only [List.length_cons]; push_cast; ring
    have hlen : ls.depth_ = (xs.length : Int) + 1 + 1 := by
      rw [hd, hcast]
    have hhi1 : (xs.length : Int) + 1 + 1 < 2147483648 := by
      rw [hcast] at hhi; exact hhi
    have hne : ls.depth_ ≠ 1 := by omega
    have h1 : lm.state_ x.lock = some ls := by rw [hx]; exact h
    show feed g lm (TrackerCall.release x :: releaseCalls xs) = _
    rw [feed_release, release_nested _ _ _ ls h1 hne (by omega) (by omega), Outcome.bind_ok, hx]
    rw [ih hxs { state_ := lm.state_.set id { ls with depth_ := ls.depth_ - 1 } }
      { ls with depth_ := ls.depth_ - 1 } (LockStateTable.set_same _ _ _)
      (by show ls.depth_ - 1 = (xs.length : Int) + 1; omega)
      (by omega)]
    rw [Outcome.bind_ok, LockStateTable.set_set]
    rfl

theorem feed_release_last (g : Statics) (lm : LockManager) (r : mtrace_lock_entry)
    (ls : LockState) (h : lm.state_ r.lock = some ls) (hd : ls.depth_ = 1) :
    feed g lm [TrackerCall.release r]
      = .ok (g, { state_ := lm.state_.erase r.lock },
          [some { ls.ss_ with end_ := r.h.ts, release_cpu := r.h.cpu }]) := by
  rw [feed_release, release_last _ _ _ ls h hd, Outcome.bind_ok, feed_nil, Outcome.bind_ok]

theorem feed_pairs (g : Statics) (lm : LockManager) (id : Nat) (ps : List LockPair)
    (hfree : lm.state_ id = none)
    (hps : ∀ p ∈ ps, p.1.2.2.lock = id ∧ p.2.lock = id) :
    feed g lm (pairCalls ps) = .ok (g, lm, ps.map fun p => some (pairSection p)) := by
  induction ps with
  | nil => rfl
  | cons p ps ih =>
    have hp := hps p (List.mem_cons_self _ _)
    have hrest : ∀ q ∈ ps, q.1.2.2.lock = id ∧ q.2.lock = id :=
      fun q hq => hps q (List.mem_cons_of_mem _ hq)
    show feed g lm (TrackerCall.acquire p.1.1 p.1.2.1 p.1.2.2 :: TrackerCall.release p.2
      :: pairCalls ps) = _
    rw [feed_acquire, acquire_fresh _ _ lm _ (by rw [hp.1]; exact hfree), Outcome.bind_ok,
      feed_release, hp.1]
    rw [release_last g _ p.2 _ (by rw [hp.2]; exact LockStateTable.set_same _ _ _) rfl,
      Outcome.bind_ok]
    simp only [hp.2, LockStateTable.erase_set, LockStateTable.erase_eq_self _ _ hfree]
    rw [ih hrest, Outcome.bind_ok]
    rfl

theorem LockState.apply_acquired_ts (ls : LockState) (op : LockStateOp)
    (h : ls.acquired_ts_ ≠ 0) : (ls.apply op).acquired_ts_ ≠ 0 := by
  cases op with
  | acquire pc l =>
    simp only [LockState.apply, LockState.acquire]
    split <;> exact h
  | acquired l =>
    simp only [LockState.apply, LockState.acquired, if_neg h]
    exact h
  | release l =>
    simp only [LockState.apply, LockState.release]
    split <;> exact h

theorem LockState.applyOps_acquired_ts (ops : List LockStateOp) (ls : LockState)
    (h : ls.acquired_ts_ ≠ 0) : (ls.applyOps ops).acquired_ts_ ≠ 0 := by
  induction ops generalizing ls with
  | nil => exact h
  | cons op ops ih => exact ih (ls.apply op) (LockState.apply_acquired_ts ls op h)

theorem LockState.acquired_noop (ls : LockState) (q : mtrace_lock_entry)
    (h : ls.acquired_ts_ ≠ 0) : ls.acquired q = ls := by
  simp only [LockState.acquired, if_neg h]

theorem LockState.acquired_ts_after (ls : LockState) (q : mtrace_lock_entry)
    (h : q.h.ts ≠ 0) : (ls.acquired q).acquired_ts_ ≠ 0 := by
  unfold LockState.acquired
  split
  · exact h
  · assumption

theorem feed_acquired_missing (qs : List mtrace_lock_entry) (g : Statics) (lm : LockManager)
    (hqs : ∀ q ∈ qs, lm.state_ q.lock = none) :
    (g.acquired_misses + qs.length < 10 →
      feed g lm (acquiredCalls qs)
        = .ok ({ g with acquired_misses := g.acquired_misses + qs.length }, lm, []))
    ∧ (qs ≠ [] → g.acquired_misses < 10 → 10 ≤ g.acquired_misses + qs.length →
      feed g lm (acquiredCalls qs) = .die "acquired: acquired too many missing locks") := by
  induction qs generalizing g with
  | nil =>
    refine ⟨fun _ => ?_, fun h => absurd rfl h⟩
    show Outcome.ok (g, lm, []) = _
    simp
  | cons q qs ih =>
    have hq : lm.state_ q.lock = none := hqs q (List.mem_cons_self _ _)
    have hrest : ∀ x ∈ qs, lm.state_ x.lock = none :=
      fun x hx => hqs x (List.mem_cons_of_mem _ hx)
    have hlen : ((q :: qs).length : Int) = (qs.length : Int) + 1 := by
      simp only [List.length_cons]; push_cast; ring
    constructor
    · intro hlt
      have h1 : ¬ (g.acquired_misses + 1 ≥ 10) := by omega
      show feed g lm (TrackerCall.acquired q :: acquiredCalls qs) = _
      rw [feed_acquired]
      simp only [acquired, hq, h1, if_false, Outcome.bind_ok]
      rw [(ih { g with acquired_misses := g.acquired_misses + 1 } hrest).1
        (by show g.acquired_misses + 1 + (qs.length : Int) < 10; omega)]
      have : g.acquired_misses + 1 + (qs.length : Int)
          = g.acquired_misses + ((q :: qs).length : Int) := by omega
      simp only [this]
    · intro _ hlt hge
      show feed g lm (TrackerCall.acquired q :: acquiredCalls qs) = _
      rw [feed_acquired]
      by_cases h1 : g.acquired_misses + 1 ≥ 10
      · simp only [acquired, hq, h1, if_true, Outcome.bind_die]
      · simp only [acquired, hq, h1, if_false, Outcome.bind_ok]
        have hne : qs ≠ [] := by
          intro hnil
          rw [hnil] at hge
          simp only [List.length_singleton, Nat.cast_one] at hge
          omega
        exact (ih { g with acquired_misses := g.acquired_misses + 1 } hrest).2 hne
          (by show g.acquired_misses + 1 < 10; omega)
          (by show 10 ≤ g.acquired_misses + 1 + (qs.length : Int); omega)

end LockManager

/-! ## Life-cycles of one lock -/

/-- C1.  Nested life-cycle.  If lock `id` has no state, then `n` acquire
calls for `id` (the first is `a`, the others `as`) followed by `n` release
calls for `id` (`rs`, then the last one `r`) all return; the first `n - 1`
releases return no section and the last returns the section that starts at
the first acquire (its timestamp and cpu) and ends at the last release (its
timestamp and cpu).  The manager and the miss counters end as they began.
Here `n` is within the range of the `int` that holds the depth,
`n ≤ 2^31 - 1`, so that no `depth_++` overflows. -/
theorem C1_nested_lifecycle (g : Statics) (lm : LockManager) (id : Nat)
    (pc : Nat → Nat) (u : SerialSection) (a : mtrace_lock_entry)
    (as : List AcquireArgs) (rs : List mtrace_lock_entry) (r : mtrace_lock_entry)
    (hfree : lm.state_ id = none)
    (ha : a.lock = id) (has : ∀ x ∈ as, x.2.2.lock = id)
    (hrs : ∀ x ∈ rs, x.lock = id) (hr : r.lock = id)
    (hlen : rs.length = as.length) (hn : as.length + 1 < 2 ^ 31) :
    LockManager.feed g lm
        (TrackerCall.acquire pc u a :: acquireCalls as
          ++ (releaseCalls rs ++ [TrackerCall.release r]))
      = .ok (g, lm, List.replicate rs.length none ++
          [some { start := a.h.ts, end_ := r.h.ts, acquire_cpu := a.h.cpu,
                  release_cpu := r.h.cpu, call_pc := pc a.h.cpu }]) := by
  have hn1 : (1 : Int) + (as.length : Int) < 2147483648 := by
    norm_num at hn
    omega
  open LockManager in
  rw [List.cons_append, feed_acquire, acquire_fresh pc u lm a (by rw [ha]; exact hfree),
    Outcome.bind_ok, ha, feed_append]
  rw [feed_acquires_held g id as has _ _ 1 (LockStateTable.set_same _ _ _) rfl Int.one_pos hn1,
    Outcome.bind_ok, LockStateTable.set_set, feed_append]
  rw [feed_releases_nested g id rs hrs _ _ (LockStateTable.set_same _ _ _)
    (by show (1 : Int) + (as.length : Int) = (rs.length : Int) + 1; rw [hlen]; ring)
    (by rw [hlen]; omega),
    Outcome.bind_ok, LockStateTable.set_set]
  have h1 : (LockStateTable.set lm.state_ id
      { ss_ := { u with start := a.h.ts, call_pc := pc a.h.cpu, acquire_cpu := a.h.cpu },
        acquired_ts_ := 0, depth_ := 1 }) r.lock = some
      { ss_ := { u with start := a.h.ts, call_pc := pc a.h.cpu, acquire_cpu := a.h.cpu },
        acquired_ts_ := 0, depth_ := 1 } := by
    rw [hr]; exact LockStateTable.set_same _ _ _
  rw [feed_release_last g _ r _ h1 rfl]
  simp only [Outcome.bind_ok, List.nil_append, hr, LockStateTable.erase_set,
    LockStateTable.erase_eq_self _ _ hfree]

/-- Witness for C1: scenario C of the specification, on a new manager (lock 5,
acquire at 10 and 20, release at 30 and 40). -/
theorem C1_nested_lifecycle_witness :
    LockManager.feed Statics.zero LockManager.ctor
        [TrackerCall.acquire (fun c => 100 + c) ⟨1, 2, 3, 4, 5⟩ ⟨⟨10, 1⟩, 5, 0, ""⟩,
         TrackerCall.acquire (fun c => 200 + c) ⟨6, 7, 8, 9, 0⟩ ⟨⟨20, 2⟩, 5, 0, ""⟩,
         TrackerCall.release ⟨⟨30, 3⟩, 5, 0, ""⟩,
         TrackerCall.release ⟨⟨40, 4⟩, 5, 0, ""⟩]
      = .ok (Statics.zero, LockManager.ctor,
          [none, some { start := 10, end_ := 40, acquire_cpu := 1, release_cpu := 4,
                        call_pc := 101 }]) :=
  C1_nested_lifecycle Statics.zero LockManager.ctor 5 (fun c => 100 + c) ⟨1, 2, 3, 4, 5⟩
    ⟨⟨10, 1⟩, 5, 0, ""⟩ [(fun c => 200 + c, ⟨6, 7, 8, 9, 0⟩, ⟨⟨20, 2⟩, 5, 0, ""⟩)]
    [⟨⟨30, 3⟩, 5, 0, ""⟩] ⟨⟨40, 4⟩, 5, 0, ""⟩ rfl rfl
    (by intro x hx; rw [List.mem_singleton] at hx; rw [hx])
    (by intro x hx; rw [List.mem_singleton] at hx; rw [hx]) rfl rfl
    (by show 1 + 1 < 2 ^ 31; norm_num)

/-- C2.  Un-nested pairs.  If lock `id` has no state and `ps` is a sequence
of matched pairs (acquire, release) for `id`, then after the first `i` pairs,
for every `i`, all calls have returned, the `i` releases have returned the
`i` sections of their pairs (start at the acquire, end at the release), the
manager is what it was at the start, and it holds no state for `id`. -/
theorem C2_unnested_pairs (g : Statics) (lm : LockManager) (id : Nat) (ps : List LockPair)
    (i : Nat)
    (hfree : lm.state_ id = none)
    (hps : ∀ p ∈ ps, p.1.2.2.lock = id ∧ p.2.lock = id) :
    LockManager.feed g lm (pairCalls (ps.take i))
        = .ok (g, lm, (ps.take i).map fun p => some (pairSection p))
      ∧ LockManager.stateAfter g lm (pairCalls (ps.take i)) id = none := by
  have key := LockManager.feed_pairs g lm id (ps.take i) hfree
    (fun p hp => hps p (List.mem_of_mem_take hp))
  refine ⟨key, ?_⟩
  unfold LockManager.stateAfter
  rw [key]
  exact hfree

/-- Witness for C2: two pairs on lock 5 of a new manager, both completed. -/
theorem C2_unnested_pairs_witness :
    LockManager.feed Statics.zero LockManager.ctor
        [TrackerCall.acquire (fun c => 100 + c) ⟨1, 2, 3, 4, 5⟩ ⟨⟨10, 1⟩, 5, 0, ""⟩,
         TrackerCall.release ⟨⟨30, 3⟩, 5, 0, ""⟩,
         TrackerCall.acquire (fun c => 200 + c) ⟨6, 7, 8, 9, 0⟩ ⟨⟨40, 2⟩, 5, 0, ""⟩,
         TrackerCall.release ⟨⟨70, 2⟩, 5, 0, ""⟩]
        = .ok (Statics.zero, LockManager.ctor,
            [some { start := 10, end_ := 30, acquire_cpu := 1, release_cpu := 3,
                    call_pc := 101 },
             some { start := 40, end_ := 70, acquire_cpu := 2, release_cpu := 2,
                    call_pc := 202 }])
      ∧ LockManager.stateAfter Statics.zero LockManager.ctor
        [TrackerCall.acquire (fun c => 100 + c) ⟨1, 2, 3, 4, 5⟩ ⟨⟨10, 1⟩, 5, 0, ""⟩,
         TrackerCall.release ⟨⟨30, 3⟩, 5, 0, ""⟩,
         TrackerCall.acquire (fun c => 200 + c) ⟨6, 7, 8, 9, 0⟩ ⟨⟨40, 2⟩, 5, 0, ""⟩,
         TrackerCall.release ⟨⟨70, 2⟩, 5, 0, ""⟩] 5 = none :=
  C2_unnested_pairs Statics.zero LockManager.ctor 5
    [((fun c => 100 + c, ⟨1, 2, 3, 4, 5⟩, ⟨⟨10, 1⟩, 5, 0, ""⟩), ⟨⟨30, 3⟩, 5, 0, ""⟩),
     ((fun c => 200 + c, ⟨6, 7, 8, 9, 0⟩, ⟨⟨40, 2⟩, 5, 0, ""⟩), ⟨⟨70, 2⟩, 5, 0, ""⟩)]
    2 rfl
    (by
      intro p hp
      simp only [List.mem_cons, List.mem_singleton, List.not_mem_nil, or_false] at hp
      rcases hp with hp | hp <;> rw [hp] <;> exact ⟨rfl, rfl⟩)

/-- C3.  Life-cycle with an `acquired` event.  If lock `id` has no state,
then acquire `a`, acquired `q`, any further nested acquires `as`, and as many
releases as acquires (`rs`, then the last one `r`), all for `id`, all return;
the one section, returned by the last release, starts at the timestamp of
`q` and has the cpu of `q` as `acquire_cpu`, while its `call_pc` is the entry
of the call-site table for the cpu of the acquire request `a`, read when `a`
was handled.  The number of acquires is within the range of the `int` that
holds the depth (at most `2^31 - 1`), so that no `depth_++` overflows. -/
theorem C3_acquired_moves_start (g : Statics) (lm : LockManager) (id : Nat)
    (pc : Nat → Nat) (u : SerialSection) (a q : mtrace_lock_entry)
    (as : List AcquireArgs) (rs : List mtrace_lock_entry) (r : mtrace_lock_entry)
    (hfree : lm.state_ id = none)
    (ha : a.lock = id) (hq : q.lock = id) (has : ∀ x ∈ as, x.2.2.lock = id)
    (hrs : ∀ x ∈ rs, x.lock = id) (hr : r.lock = id)
    (hlen : rs.length = as.length) (hn : as.length + 1 < 2 ^ 31) :
    LockManager.feed g lm
        (TrackerCall.acquire pc u a :: TrackerCall.acquired q :: acquireCalls as
          ++ (releaseCalls rs ++ [TrackerCall.release r]))
      = .ok (g, lm, List.replicate rs.length none ++
          [some { start := q.h.ts, end_ := r.h.ts, acquire_cpu := q.h.cpu,
                  release_cpu := r.h.cpu, call_pc := pc a.h.cpu }]) := by
  have hn1 : (1 : Int) + (as.length : Int) < 2147483648 := by
    norm_num at hn
    omega
  open LockManager in
  rw [List.cons_append, List.cons_append, feed_acquire,
    acquire_fresh pc u lm a (by rw [ha]; exact hfree), Outcome.bind_ok, ha, feed_acquired,
    acquired_held g _ q _ (by rw [hq]; exact LockStateTable.set_same _ _ _), Outcome.bind_ok,
    hq, LockStateTable.set_set, feed_append]
  rw [feed_acquires_held g id as has _ _ 1 (LockStateTable.set_same _ _ _)
      (by simp [LockState.acquired]) Int.one_pos hn1,
    Outcome.bind_ok, LockStateTable.set_set, feed_append]
  rw [feed_releases_nested g id rs hrs _ _ (LockStateTable.set_same _ _ _)
    (by simp [hlen]; ring)
    (by rw [hlen]; omega),
    Outcome.bind_ok, LockStateTable.set_set]
  rw [feed_release_last g _ r _ (by rw [hr]; exact LockStateTable.set_same _ _ _) rfl]
  simp [Outcome.bind_ok, hr, LockStateTable.erase_set,
    LockStateTable.erase_eq_self _ _ hfree, LockState.acquired]

/-- Witness for C3: scenario A of the specification on a new manager, with a
nested acquire added (acquire at 100, acquired at 105, final release at 200). -/
theorem C3_acquired_moves_start_witness :
    LockManager.feed Statics.zero LockManager.ctor
        [TrackerCall.acquire (fun c => 100 + c) ⟨1, 2, 3, 4, 5⟩ ⟨⟨100, 0⟩, 5, 0, ""⟩,
         TrackerCall.acquired ⟨⟨105, 1⟩, 5, 0, ""⟩,
         TrackerCall.acquire (fun c => 200 + c) ⟨6, 7, 8, 9, 0⟩ ⟨⟨120, 2⟩, 5, 0, ""⟩,
         TrackerCall.release ⟨⟨130, 3⟩, 5, 0, ""⟩,
         TrackerCall.release ⟨⟨200, 4⟩, 5, 0, ""⟩]
      = .ok (Statics.zero, LockManager.ctor,
          [none, some { start := 105, end_ := 200, acquire_cpu := 1, release_cpu := 4,
                        call_pc := 100 }]) :=
  C3_acquired_moves_start Statics.zero LockManager.ctor 5 (fun c => 100 + c) ⟨1, 2, 3, 4, 5⟩
    ⟨⟨100, 0⟩, 5, 0, ""⟩ ⟨⟨105, 1⟩, 5, 0, ""⟩
    [(fun c => 200 + c, ⟨6, 7, 8, 9, 0⟩, ⟨⟨120, 2⟩, 5, 0, ""⟩)]
    [⟨⟨130, 3⟩, 5, 0, ""⟩] ⟨⟨200, 4⟩, 5, 0, ""⟩ rfl rfl rfl
    (by intro x hx; rw [List.mem_singleton] at hx; rw [hx])
    (by intro x hx; rw [List.mem_singleton] at hx; rw [hx]) rfl rfl
    (by show 1 + 1 < 2 ^ 31; norm_num)

/-! ## The `acquired` event and the miss counters -/

/-- Counterexample to C4 as stated: on a new manager, lock 9 is requested
(ts 5, cpu 1) and a first `acquired` event arrives with timestamp 0 (cpu 2).
The recorded first-acquired timestamp is then still 0, and a later `acquired`
event (ts 7, cpu 3) of the same life-cycle changes the section start, the
`acquire_cpu` and the recorded timestamp. -/
theorem C4_counterexample_zero_timestamp :
    LockManager.stateAfter Statics.zero LockManager.ctor
        [TrackerCall.acquire (fun _ => 0) ⟨0, 0, 0, 0, 0⟩ ⟨⟨5, 1⟩, 9, 0, ""⟩,
         TrackerCall.acquired ⟨⟨0, 2⟩, 9, 0, ""⟩] 9
        = some { ss_ := ⟨0, 0, 2, 0, 0⟩, acquired_ts_ := 0, depth_ := 1 }
      ∧ LockManager.stateAfter Statics.zero LockManager.ctor
        [TrackerCall.acquire (fun _ => 0) ⟨0, 0, 0, 0, 0⟩ ⟨⟨5, 1⟩, 9, 0, ""⟩,
         TrackerCall.acquired ⟨⟨0, 2⟩, 9, 0, ""⟩,
         TrackerCall.acquired ⟨⟨7, 3⟩, 9, 0, ""⟩] 9
        = some { ss_ := ⟨7, 0, 3, 0, 0⟩, acquired_ts_ := 7, depth_ := 1 } := by
  decide

/-- C4, amended.  Once a `LockState` has handled an `acquired` event `q1`
with a non-zero timestamp, then after any further method calls `ops` on that
same object (the rest of its life-cycle so far), an `acquired` event `q2` for
its lock leaves the object unchanged (section, recorded timestamp, depth),
and `LockManager::acquired` returns with the whole table and the miss
counters unchanged. -/
theorem C4_later_acquired_ignored (g : Statics) (lm : LockManager)
    (ls0 : LockManager.LockState) (q1 q2 : mtrace_lock_entry) (ops : List LockStateOp)
    (hts : q1.h.ts ≠ 0)
    (hst : lm.state_ q2.lock = some ((ls0.acquired q1).applyOps ops)) :
    ((ls0.acquired q1).applyOps ops).acquired q2 = (ls0.acquired q1).applyOps ops
      ∧ LockManager.acquired g lm q2 = .ok (g, lm) := by
  have hne : ((ls0.acquired q1).applyOps ops).acquired_ts_ ≠ 0 :=
    LockManager.LockState.applyOps_acquired_ts ops _
      (LockManager.LockState.acquired_ts_after ls0 q1 hts)
  have hsame : ((ls0.acquired q1).applyOps ops).acquired q2 = (ls0.acquired q1).applyOps ops :=
    LockManager.LockState.acquired_noop _ q2 hne
  refine ⟨hsame, ?_⟩
  rw [LockManager.acquired_held g lm q2 _ hst, hsame,
    LockManager.LockStateTable.set_eq_self _ _ _ hst]

/-- Witness for C4: lock 9 requested at 5, granted at 6 on cpu 2, then a
nested acquire and release; a further `acquired` event at 40 changes nothing. -/
theorem C4_later_acquired_ignored_witness :
    (((LockManager.LockState.ctor ⟨0, 0, 0, 0, 0⟩).acquire (fun _ => 0) ⟨⟨5, 1⟩, 9, 0, ""⟩).acquired
        ⟨⟨6, 2⟩, 9, 0, ""⟩).applyOps
          [LockStateOp.acquire (fun _ => 0) ⟨⟨10, 1⟩, 9, 0, ""⟩,
           LockStateOp.release ⟨⟨20, 1⟩, 9, 0, ""⟩]
      = { ss_ := ⟨6, 0, 2, 0, 0⟩, acquired_ts_ := 6, depth_ := 1 }
    ∧ LockManager.acquired Statics.zero
        { state_ := LockManager.LockStateTable.set LockManager.LockStateTable.empty 9
            { ss_ := ⟨6, 0, 2, 0, 0⟩, acquired_ts_ := 6, depth_ := 1 } }
        ⟨⟨40, 3⟩, 9, 0, ""⟩
      = .ok (Statics.zero,
        { state_ := LockManager.LockStateTable.set LockManager.LockStateTable.empty 9
            { ss_ := ⟨6, 0, 2, 0, 0⟩, acquired_ts_ := 6, depth_ := 1 } }) :=
  ⟨by decide,
   (C4_later_acquired_ignored Statics.zero
      { state_ := LockManager.LockStateTable.set LockManager.LockStateTable.empty 9
          { ss_ := ⟨6, 0, 2, 0, 0⟩, acquired_ts_ := 6, depth_ := 1 } }
      ((LockManager.LockState.ctor ⟨0, 0, 0, 0, 0⟩).acquire (fun _ => 0) ⟨⟨5, 1⟩, 9, 0, ""⟩)
      ⟨⟨6, 2⟩, 9, 0, ""⟩ ⟨⟨40, 3⟩, 9, 0, ""⟩
      [LockStateOp.acquire (fun _ => 0) ⟨⟨10, 1⟩, 9, 0, ""⟩,
       LockStateOp.release ⟨⟨20, 1⟩, 9, 0, ""⟩]
      (by decide) (by decide)).2⟩

/-- C5, what the code does.  A release of a lock that has no state counts a
miss and then, while fewer than twenty misses have been counted, does not
return: the code goes on to dereference the past-the-end iterator.  Only
the twentieth miss ends the run through `die`. -/
theorem C5_unheld_release_not_ignored (g : Statics) (lm : LockManager)
    (l : mtrace_lock_entry) (h : lm.state_ l.lock = none) :
    (g.release_misses + 1 < 20 → LockManager.release g lm l = .undefined)
      ∧ (20 ≤ g.release_misses + 1 →
          LockManager.release g lm l = .die "LockManager: released too many unheld locks") := by
  constructor
  · intro hlt
    have h1 : ¬ (g.release_misses + 1 ≥ 20) := by omega
    simp only [LockManager.release, h, h1, if_false]
  · intro hge
    have h1 : g.release_misses + 1 ≥ 20 := hge
    simp only [LockManager.release, h, h1, if_true]

/-- Witness for C5: the first release ever, of lock 5, on a new manager, and
the same release when nineteen misses have been counted. -/
theorem C5_unheld_release_not_ignored_witness :
    LockManager.release Statics.zero LockManager.ctor ⟨⟨30, 0⟩, 5, 0, ""⟩ = .undefined
      ∧ LockManager.release { release_misses := 19, acquired_misses := 0 } LockManager.ctor
          ⟨⟨30, 0⟩, 5, 0, ""⟩
        = .die "LockManager: released too many unheld locks" :=
  ⟨(C5_unheld_release_not_ignored Statics.zero LockManager.ctor ⟨⟨30, 0⟩, 5, 0, ""⟩ rfl).1
      (by decide),
   (C5_unheld_release_not_ignored { release_misses := 19, acquired_misses := 0 }
      LockManager.ctor ⟨⟨30, 0⟩, 5, 0, ""⟩ rfl).2 (by decide)⟩

/-- C6.  Unmatched `acquired` events.  In a process that has counted no such
miss yet, a sequence of `acquired` events for locks without state is handled
as follows: up to nine of them all return, leaving the table unchanged and
the miss counter at their number; the tenth ends the run through `die`. -/
theorem C6_unmatched_acquired (g : Statics) (lm : LockManager) (qs : List mtrace_lock_entry)
    (hg : g.acquired_misses = 0) (hqs : ∀ q ∈ qs, lm.state_ q.lock = none) :
    (qs.length ≤ 9 →
        LockManager.feed g lm (acquiredCalls qs)
          = .ok ({ g with acquired_misses := qs.length }, lm, []))
      ∧ (qs.length = 10 →
        LockManager.feed g lm (acquiredCalls qs)
          = .die "acquired: acquired too many missing locks") := by
  have key := LockManager.feed_acquired_missing qs g lm hqs
  constructor
  · intro hle
    rw [key.1 (by rw [hg]; omega), hg, zero_add]
  · intro h10
    refine key.2 ?_ (by rw [hg]; decide) (by rw [hg, h10]; decide)
    intro hnil
    rw [hnil] at h10
    exact absurd h10 (by decide)

/-- Witness for C6: nine and ten unmatched `acquired` events on a new manager
at program start. -/
theorem C6_unmatched_acquired_witness :
    LockManager.feed Statics.zero LockManager.ctor
        (acquiredCalls (List.replicate 9 ⟨⟨30, 0⟩, 5, 0, ""⟩))
        = .ok ({ release_misses := 0, acquired_misses := 9 }, LockManager.ctor, [])
      ∧ LockManager.feed Statics.zero LockManager.ctor
        (acquiredCalls (List.replicate 10 ⟨⟨30, 0⟩, 5, 0, ""⟩))
        = .die "acquired: acquired too many missing locks" :=
  ⟨(C6_unmatched_acquired Statics.zero LockManager.ctor (List.replicate 9 ⟨⟨30, 0⟩, 5, 0, ""⟩)
      rfl (fun _ _ => rfl)).1 (by decide),
   (C6_unmatched_acquired Statics.zero LockManager.ctor (List.replicate 10 ⟨⟨30, 0⟩, 5, 0, ""⟩)
      rfl (fun _ _ => rfl)).2 (by decide)⟩


/-- Counterexample to C7 as stated: two new `LockManager` objects in one
process.  Alone, the second returns from an unmatched `acquired` event; after
nine unmatched `acquired` events handled by the first object, the same event
on the second object ends the run. -/
theorem C7_counterexample_shared_counter :
    LockManager.feedTwo Statics.zero LockManager.ctor LockManager.ctor
        [] [TrackerCall.acquired ⟨⟨30, 0⟩, 5, 0, ""⟩]
        = .ok ({ release_misses := 0, acquired_misses := 1 }, LockManager.ctor,
            LockManager.ctor)
      ∧ LockManager.feedTwo Statics.zero LockManager.ctor LockManager.ctor
        (acquiredCalls (List.replicate 9 ⟨⟨20, 0⟩, 4, 0, ""⟩))
        [TrackerCall.acquired ⟨⟨30, 0⟩, 5, 0, ""⟩]
        = .die "acquired: acquired too many missing locks" :=
  ⟨rfl, rfl⟩

/-- C7, amended.  The miss counter of `acquired` is one counter for the whole
process.  In a process that has counted no such miss yet, let one
`LockManager` handle the unmatched `acquired` events `qsA` and then another
one the unmatched `acquired` events `qsB`: if there are at most nine events
in all, every call returns, both tables are unchanged and the counter is the
total number of events; if the first object handled at most nine and the
total is ten, the run ends through `die` in the second object. -/
theorem C7_acquired_budget_shared (g : Statics) (lmA lmB : LockManager)
    (qsA qsB : List mtrace_lock_entry) (hg : g.acquired_misses = 0)
    (hA : ∀ q ∈ qsA, lmA.state_ q.lock = none) (hB : ∀ q ∈ qsB, lmB.state_ q.lock = none) :
    (qsA.length + qsB.length ≤ 9 →
        LockManager.feedTwo g lmA lmB (acquiredCalls qsA) (acquiredCalls qsB)
          = .ok ({ g with acquired_misses := qsA.length + qsB.length }, lmA, lmB))
      ∧ (qsA.length ≤ 9 → qsA.length + qsB.length = 10 →
        LockManager.feedTwo g lmA lmB (acquiredCalls qsA) (acquiredCalls qsB)
          = .die "acquired: acquired too many missing locks") := by
  have keyA := LockManager.feed_acquired_missing qsA g lmA hA
  constructor
  · intro hle
    have keyB := LockManager.feed_acquired_missing qsB
      { g with acquired_misses := g.acquired_misses + qsA.length } lmB hB
    unfold LockManager.feedTwo
    rw [keyA.1 (by rw [hg]; omega), Outcome.bind_ok]
    rw [keyB.1 (by show g.acquired_misses + (qsA.length : Int) + (qsB.length : Int) < 10
                   rw [hg]; omega), Outcome.bind_ok]
    simp only [hg, zero_add]
  · intro hA9 h10
    have keyB := LockManager.feed_acquired_missing qsB
      { g with acquired_misses := g.acquired_misses + qsA.length } lmB hB
    unfold LockManager.feedTwo
    rw [keyA.1 (by rw [hg]; omega), Outcome.bind_ok]
    have hne : qsB ≠ [] := by
      intro hnil
      rw [hnil] at h10
      simp only [List.length_nil, Nat.add_zero] at h10
      omega
    rw [keyB.2 hne
      (by show g.acquired_misses + (qsA.length : Int) < 10; rw [hg]; omega)
      (by show 10 ≤ g.acquired_misses + (qsA.length : Int) + (qsB.length : Int)
          rw [hg]; omega)]
    rfl

/-- Witness for C7: four unmatched events on one new manager and five on
another leave one more in the shared budget; four and six end the run. -/
theorem C7_acquired_budget_shared_witness :
    LockManager.feedTwo Statics.zero LockManager.ctor LockManager.ctor
        (acquiredCalls (List.replicate 4 ⟨⟨20, 0⟩, 4, 0, ""⟩))
        (acquiredCalls (List.replicate 5 ⟨⟨30, 0⟩, 5, 0, ""⟩))
        = .ok ({ release_misses := 0, acquired_misses := 9 }, LockManager.ctor,
            LockManager.ctor)
      ∧ LockManager.feedTwo Statics.zero LockManager.ctor LockManager.ctor
        (acquiredCalls (List.replicate 4 ⟨⟨20, 0⟩, 4, 0, ""⟩))
        (acquiredCalls (List.replicate 6 ⟨⟨30, 0⟩, 5, 0, ""⟩))
        = .die "acquired: acquired too many missing locks" :=
  ⟨(C7_acquired_budget_shared Statics.zero LockManager.ctor LockManager.ctor
      (List.replicate 4 ⟨⟨20, 0⟩, 4, 0, ""⟩) (List.replicate 5 ⟨⟨30, 0⟩, 5, 0, ""⟩)
      rfl (fun _ _ => rfl) (fun _ _ => rfl)).1 (by decide),
   (C7_acquired_budget_shared Statics.zero LockManager.ctor LockManager.ctor
      (List.replicate 4 ⟨⟨20, 0⟩, 4, 0, ""⟩) (List.replicate 6 ⟨⟨30, 0⟩, 5, 0, ""⟩)
      rfl (fun _ _ => rfl) (fun _ _ => rfl)).2 (by decide) (by decide)⟩

/-! ## The statistics record -/

namespace SerialSections.SerialSectionStat

theorem add_cross (st : SerialSectionStat) (ss : SerialSection)
    (h : ss.acquire_cpu ≠ ss.release_cpu) :
    st.add ss = .ok { st with mismatches := (st.mismatches + 1) % U64 } := by
  simp only [add, h, ne_eq, not_false_eq_true, if_true]

theorem add_same (st : SerialSectionStat) (ss : SerialSection)
    (h : ss.acquire_cpu = ss.release_cpu) (hle : ss.start ≤ ss.end_) :
    st.add ss = .ok { st with ts_cycles := (st.ts_cycles + (ss.end_ - ss.start)) % U64,
                              acquires := (st.acquires + 1) % U64 } := by
  have hlt : ¬ ss.end_ < ss.start := Nat.not_lt.mpr hle
  simp only [add, h, ne_eq, not_true_eq_false, if_false, hlt]

theorem add_backwards (st : SerialSectionStat) (ss : SerialSection)
    (h : ss.acquire_cpu = ss.release_cpu) (hlt : ss.end_ < ss.start) :
    st.add ss = .die "SerialSections::add %lu < %lu" := by
  simp only [add, h, ne_eq, not_true_eq_false, if_false, hlt, if_true]

theorem addAll_acc (l : List SerialSection) (st : SerialSectionStat) (a b c : Nat)
    (ha : st.ts_cycles = a % U64) (hb : st.acquires = b % U64) (hc : st.mismatches = c % U64)
    (hok : ∀ ss ∈ l, ss.acquire_cpu = ss.release_cpu → ss.start ≤ ss.end_) :
    addAll st l = .ok { st with ts_cycles := (a + cycles (sameCpu l)) % U64,
                                acquires := (b + (sameCpu l).length) % U64,
                                mismatches := (c + (crossCpu l).length) % U64 } := by
  induction l generalizing st a b c with
  | nil =>
    cases st
    simp only at ha hb hc
    simp [addAll, sameCpu, crossCpu, cycles, ha, hb, hc]
  | cons ss rest ih =>
    have hrest : ∀ x ∈ rest, x.acquire_cpu = x.release_cpu → x.start ≤ x.end_ :=
      fun x hx => hok x (List.mem_cons_of_mem _ hx)
    by_cases hcpu : ss.acquire_cpu = ss.release_cpu
    · have hle := hok ss (List.mem_cons_self _ _) hcpu
      have h1 : (st.ts_cycles + (ss.end_ - ss.start)) % U64
          = (a + (ss.end_ - ss.start)) % U64 := by
        rw [ha, Nat.add_mod, Nat.mod_mod, ← Nat.add_mod]
      have h2 : (st.acquires + 1) % U64 = (b + 1) % U64 := by
        rw [hb, Nat.add_mod, Nat.mod_mod, ← Nat.add_mod]
      show (st.add ss).bind (fun st1 => addAll st1 rest) = _
      rw [add_same st ss hcpu hle, Outcome.bind_ok]
      rw [ih { st with ts_cycles := (st.ts_cycles + (ss.end_ - ss.start)) % U64,
                       acquires := (st.acquires + 1) % U64 }
        (a + (ss.end_ - ss.start)) (b + 1) c h1 h2 hc hrest]
      simp [sameCpu, crossCpu, cycles, hcpu, List.filter_cons, Nat.add_assoc, Nat.add_comm 1]
    · have h3 : (st.mismatches + 1) % U64 = (c + 1) % U64 := by
        rw [hc, Nat.add_mod, Nat.mod_mod, ← Nat.add_mod]
      show (st.add ss).bind (fun st1 => addAll st1 rest) = _
      rw [add_cross st ss hcpu, Outcome.bind_ok]
      rw [ih { st with mismatches := (st.mismatches + 1) % U64 } a b (c + 1) ha hb h3 hrest]
      simp [sameCpu, crossCpu, cycles, hcpu, List.filter_cons, Nat.add_assoc, Nat.add_comm 1]

end SerialSections.SerialSectionStat

open SerialSections in
/-- C8.  Totals of a statistics record.  Take a record whose three counters
are zero (a new one, before or after `init`) and apply `add` to a sequence of
sections in which every same-cpu section has `start ≤ end` (no call aborts).
Then every call returns, the identity fields are untouched, and, in the
64-bit arithmetic of the fields, `ts_cycles` is the sum of `end - start` over
the same-cpu sections, `acquires` their number and `mismatches` the number of
cross-cpu sections; the three are exactly these values whenever the sum and
the length of the sequence are below `2^64`. -/
theorem C8_stat_totals (st0 : SerialSectionStat) (l : List SerialSection)
    (hc : st0.ts_cycles = 0) (ha : st0.acquires = 0) (hm : st0.mismatches = 0)
    (hok : ∀ ss ∈ l, ss.acquire_cpu = ss.release_cpu → ss.start ≤ ss.end_) :
    st0.addAll l
        = .ok { st0 with
            ts_cycles := SerialSectionStat.cycles (SerialSectionStat.sameCpu l) % U64,
            acquires := (SerialSectionStat.sameCpu l).length % U64,
            mismatches := (SerialSectionStat.crossCpu l).length % U64 }
      ∧ (SerialSectionStat.cycles (SerialSectionStat.sameCpu l) < U64 → l.length < U64 →
          st0.addAll l
            = .ok { st0 with
                ts_cycles := SerialSectionStat.cycles (SerialSectionStat.sameCpu l),
                acquires := (SerialSectionStat.sameCpu l).length,
                mismatches := (SerialSectionStat.crossCpu l).length }) := by
  have key := SerialSectionStat.addAll_acc l st0 0 0 0 (by rw [hc]; rfl) (by rw [ha]; rfl)
    (by rw [hm]; rfl) hok
  simp only [Nat.zero_add] at key
  refine ⟨key, fun hsum hlen => ?_⟩
  have h1 : (SerialSectionStat.sameCpu l).length < U64 :=
    lt_of_le_of_lt (List.length_filter_le _ _) hlen
  have h2 : (SerialSectionStat.crossCpu l).length < U64 :=
    lt_of_le_of_lt (List.length_filter_le _ _) hlen
  rw [key, Nat.mod_eq_of_lt hsum, Nat.mod_eq_of_lt h1, Nat.mod_eq_of_lt h2]

open SerialSections in
/-- Witness for C8: three sections on a new record, two on one cpu (40 and 5
cycles) and one handed over between cpus. -/
theorem C8_stat_totals_witness :
    SerialSectionStat.ctor.addAll [⟨10, 50, 1, 1, 0⟩, ⟨60, 90, 1, 2, 0⟩, ⟨100, 105, 3, 3, 0⟩]
        = .ok { lock_id := 0, obj_id := 0, name := "", ts_cycles := 45, acquires := 2,
                mismatches := 1 } :=
  (C8_stat_totals SerialSectionStat.ctor
    [⟨10, 50, 1, 1, 0⟩, ⟨60, 90, 1, 2, 0⟩, ⟨100, 105, 3, 3, 0⟩] rfl rfl rfl
    (by decide)).2 (by decide) (by decide)

open SerialSections in
/-- C9.  One call of `add`.  For a cross-cpu section the call returns with
`mismatches` incremented (a 64-bit increment) and every other field as it
was.  For a same-cpu section with `start ≤ end` it returns with `end - start`
added to `ts_cycles` and `acquires` incremented (64-bit operations) and every
other field as it was.  Scenario B: on a new manager, acquire on cpu 1 at 10
and release on cpu 2 at 50 give one section, and `add` of that section to a
new record gives mismatches 1, cycles 0, acquires 0. -/
theorem C9_add_one_section (st : SerialSectionStat) (ss : SerialSection) (pc : Nat → Nat)
    (u : SerialSection) :
    (ss.acquire_cpu ≠ ss.release_cpu →
        st.add ss = .ok { st with mismatches := (st.mismatches + 1) % U64 }
          ∧ (st.mismatches + 1 < U64 →
              st.add ss = .ok { st with mismatches := st.mismatches + 1 }))
      ∧ (ss.acquire_cpu = ss.release_cpu → ss.start ≤ ss.end_ →
        st.add ss = .ok { st with ts_cycles := (st.ts_cycles + (ss.end_ - ss.start)) % U64,
                                  acquires := (st.acquires + 1) % U64 }
          ∧ (st.ts_cycles + (ss.end_ - ss.start) < U64 → st.acquires + 1 < U64 →
              st.add ss = .ok { st with ts_cycles := st.ts_cycles + (ss.end_ - ss.start),
                                        acquires := st.acquires + 1 }))
      ∧ (LockManager.feed Statics.zero LockManager.ctor
            [TrackerCall.acquire pc u ⟨⟨10, 1⟩, 7, 0, ""⟩, TrackerCall.release ⟨⟨50, 2⟩, 7, 0, ""⟩]
          = .ok (Statics.zero, LockManager.ctor, [some ⟨10, 50, 1, 2, pc 1⟩])
        ∧ SerialSectionStat.ctor.add ⟨10, 50, 1, 2, pc 1⟩
          = .ok { lock_id := 0, obj_id := 0, name := "", ts_cycles := 0, acquires := 0,
                  mismatches := 1 }) := by
  refine ⟨fun h => ⟨SerialSectionStat.add_cross st ss h, fun hlt => ?_⟩,
    fun h hle => ⟨SerialSectionStat.add_same st ss h hle, fun h1 h2 => ?_⟩, ?_, ?_⟩
  · rw [SerialSectionStat.add_cross st ss h, Nat.mod_eq_of_lt hlt]
  · rw [SerialSectionStat.add_same st ss h hle, Nat.mod_eq_of_lt h1, Nat.mod_eq_of_lt h2]
  · exact LockManager.feed_pairs Statics.zero LockManager.ctor 7
      [((pc, u, ⟨⟨10, 1⟩, 7, 0, ""⟩), ⟨⟨50, 2⟩, 7, 0, ""⟩)] rfl
      (by intro p hp; rw [List.mem_singleton] at hp; rw [hp]; exact ⟨rfl, rfl⟩)
  · exact SerialSectionStat.add_cross SerialSectionStat.ctor ⟨10, 50, 1, 2, pc 1⟩
      (by show (1 : Nat) ≠ 2; decide)

open SerialSections in
/-- Witness for C9: a hand-over from cpu 1 to cpu 2 and a 40-cycle section on
cpu 1, each added to a record that already holds counts. -/
theorem C9_add_one_section_witness :
    SerialSectionStat.add ⟨7, 3, "m", 100, 4, 2⟩ ⟨10, 50, 1, 2, 0⟩
        = .ok ⟨7, 3, "m", 100, 4, 3⟩
      ∧ SerialSectionStat.add ⟨7, 3, "m", 100, 4, 2⟩ ⟨10, 50, 1, 1, 0⟩
        = .ok ⟨7, 3, "m", 140, 5, 2⟩ :=
  ⟨((C9_add_one_section ⟨7, 3, "m", 100, 4, 2⟩ ⟨10, 50, 1, 2, 0⟩ (fun _ => 0)
      ⟨0, 0, 0, 0, 0⟩).1 (by decide)).2 (by decide),
   ((C9_add_one_section ⟨7, 3, "m", 100, 4, 2⟩ ⟨10, 50, 1, 1, 0⟩ (fun _ => 0)
      ⟨0, 0, 0, 0, 0⟩).2.1 (by decide) (by decide)).2 (by decide) (by decide)⟩

open SerialSections in
/-- Counterexample to C10 as stated: a section that ends (at 10) before it
starts (at 50) and was acquired on cpu 1 but released on cpu 2 does not abort
the run: `add` returns, and the section is counted in `mismatches`. -/
theorem C10_counterexample_cross_cpu :
    SerialSectionStat.add SerialSectionStat.ctor ⟨50, 10, 1, 2, 0⟩
      = .ok { lock_id := 0, obj_id := 0, name := "", ts_cycles := 0, acquires := 0,
              mismatches := 1 } := by
  decide

open SerialSections in
/-- C10, amended.  For a section with `end < start`: when its acquiring and
releasing cpu are the same, `add` ends the run through `die` (no record is
returned, so nothing is clamped, dropped or counted); when they differ, the
timestamps are not looked at and `add` returns with `mismatches`
incremented and nothing else changed. -/
theorem C10_backwards_section (st : SerialSectionStat) (ss : SerialSection)
    (hlt : ss.end_ < ss.start) :
    (ss.acquire_cpu = ss.release_cpu → st.add ss = .die "SerialSections::add %lu < %lu")
      ∧ (ss.acquire_cpu ≠ ss.release_cpu →
          st.add ss = .ok { st with mismatches := (st.mismatches + 1) % U64 }) :=
  ⟨fun h => SerialSectionStat.add_backwards st ss h hlt,
   fun h => SerialSectionStat.add_cross st ss h⟩

open SerialSections in
/-- Witness for C10: the section from 50 back to 10 on cpu 1 ends the run. -/
theorem C10_backwards_section_witness :
    SerialSectionStat.add SerialSectionStat.ctor ⟨50, 10, 1, 1, 0⟩
      = .die "SerialSections::add %lu < %lu" :=
  (C10_backwards_section SerialSectionStat.ctor ⟨50, 10, 1, 1, 0⟩ (by decide)).1 (by decide)

/-! ## The handler -/

namespace SerialSections

theorem serialEq_iff (s1 s2 : SerialSectionKey) :
    SerialEq s1 s2 = true ↔ s1.lock_id = s2.lock_id ∧ s1.obj_id = s2.obj_id := by
  simp [SerialEq]

theorem serialEq_iff_eq (s1 s2 : SerialSectionKey) : SerialEq s1 s2 = true ↔ s1 = s2 := by
  rw [serialEq_iff]
  cases s1; cases s2
  simp

theorem StatTable.stat_set_same (m : StatTable) (k : SerialSectionKey) (v : SerialSectionStat) :
    (StatTable.set m k v) k = some v := by
  have h : SerialEq k k = true := (serialEq_iff_eq k k).mpr rfl
  simp [StatTable.set, h]

theorem StatTable.stat_set_other (m : StatTable) (k x : SerialSectionKey) (v : SerialSectionStat)
    (h : x ≠ k) : (StatTable.set m k v) x = m x := by
  have h1 : ¬ (SerialEq x k = true) := fun hx => h ((serialEq_iff_eq x k).mp hx)
  simp [StatTable.set, h1]

theorem handle_disabled (ops : LockOpCodes) (env : HandleEnv) (g : Statics)
    (s : SerialSections) (l : mtrace_lock_entry) (h : env.mtrace_enable = 0) :
    handle ops env g s l = .returned g s := by
  simp only [handle, h, if_true]

end SerialSections

/-- C11.  Tracing disabled.  While `mtrace_enable.access.value` is 0, a call
of `SerialSections::handle` returns, whatever the entry and its op, with the
miss counters, the lock-state table and the statistics map as they were (so
no section has been passed to `add`); the same holds for any sequence of
entries handled while the flag is 0. -/
theorem C11_disabled_drops (ops : LockOpCodes) (g : Statics) (s : SerialSections)
    (es : List (HandleEnv × mtrace_lock_entry))
    (hoff : ∀ e ∈ es, e.1.mtrace_enable = 0) :
    (∀ e ∈ es, SerialSections.handle ops e.1 g s e.2 = .returned g s)
      ∧ SerialSections.handleAll ops g s es = .returned g s := by
  refine ⟨fun e he => SerialSections.handle_disabled ops e.1 g s e.2 (hoff e he), ?_⟩
  induction es with
  | nil => rfl
  | cons e es ih =>
    have h1 := SerialSections.handle_disabled ops e.1 g s e.2 (hoff e (List.mem_cons_self _ _))
    show (match SerialSections.handle ops e.1 g s e.2 with
      | .returned g1 s1 => SerialSections.handleAll ops g1 s1 es
      | .died msg g1 s1 => .died msg g1 s1
      | .undefined => .undefined) = _
    rw [h1]
    exact ih (fun x hx => hoff x (List.mem_cons_of_mem _ hx))

/-- Witness for C11: with the flag at 0, a release of a lock that is not
held, an acquire and an entry with an unknown op (9) are all dropped by a new
object. -/
theorem C11_disabled_drops_witness :
    (∀ e ∈ [(({ mtrace_enable := 0, mtrace_label_map := fun _ => none,
                mtrace_call_pc := fun _ => 0, uninit := ⟨0, 0, 0, 0, 0⟩ } : HandleEnv),
              (⟨⟨10, 0⟩, 5, 2, ""⟩ : mtrace_lock_entry)),
            ({ mtrace_enable := 0, mtrace_label_map := fun _ => none,
               mtrace_call_pc := fun _ => 0, uninit := ⟨0, 0, 0, 0, 0⟩ }, ⟨⟨20, 0⟩, 5, 1, ""⟩),
            ({ mtrace_enable := 0, mtrace_label_map := fun _ => none,
               mtrace_call_pc := fun _ => 0, uninit := ⟨0, 0, 0, 0, 0⟩ }, ⟨⟨30, 0⟩, 5, 9, ""⟩)],
        SerialSections.handle ⟨2, 1, 3, by decide, by decide, by decide⟩ e.1 Statics.zero
          SerialSections.ctor e.2 = .returned Statics.zero SerialSections.ctor)
      ∧ SerialSections.handleAll ⟨2, 1, 3, by decide, by decide, by decide⟩ Statics.zero
          SerialSections.ctor
          [({ mtrace_enable := 0, mtrace_label_map := fun _ => none,
              mtrace_call_pc := fun _ => 0, uninit := ⟨0, 0, 0, 0, 0⟩ }, ⟨⟨10, 0⟩, 5, 2, ""⟩),
           ({ mtrace_enable := 0, mtrace_label_map := fun _ => none,
              mtrace_call_pc := fun _ => 0, uninit := ⟨0, 0, 0, 0, 0⟩ }, ⟨⟨20, 0⟩, 5, 1, ""⟩),
           ({ mtrace_enable := 0, mtrace_label_map := fun _ => none,
              mtrace_call_pc := fun _ => 0, uninit := ⟨0, 0, 0, 0, 0⟩ }, ⟨⟨30, 0⟩, 5, 9, ""⟩)]
        = .returned Statics.zero SerialSections.ctor :=
  C11_disabled_drops ⟨2, 1, 3, by decide, by decide, by decide⟩ Statics.zero
    SerialSections.ctor _
    (by
      intro e he
      simp only [List.mem_cons, List.mem_singleton, List.not_mem_nil, or_false] at he
      rcases he with he | he | he <;> rw [he])

namespace SerialSections

theorem handle_release (ops : LockOpCodes) (env : HandleEnv) (g : Statics)
    (s : SerialSections) (l : mtrace_lock_entry) (hen : env.mtrace_enable ≠ 0)
    (hop : l.op = ops.release) :
    handle ops env g s l
      = match LockManager.release g s.lock_manager_ l with
        | .ok (g1, lm1, some ss) => handleSection env g1 { s with lock_manager_ := lm1 } l ss
        | .ok (g1, lm1, none) => .returned g1 { s with lock_manager_ := lm1 }
        | .die msg => .died msg { g with release_misses := g.release_misses + 1 } s
        | .undefined => .undefined := by
  simp only [handle, if_neg hen, hop, if_true]

theorem handle_acquire (ops : LockOpCodes) (env : HandleEnv) (g : Statics)
    (s : SerialSections) (l : mtrace_lock_entry) (hen : env.mtrace_enable ≠ 0)
    (hop : l.op = ops.acquire) :
    handle ops env g s l
      = match LockManager.acquire env.mtrace_call_pc env.uninit s.lock_manager_ l with
        | .ok lm1 => .returned g { s with lock_manager_ := lm1 }
        | .die msg => .died msg g s
        | .undefined => .undefined := by
  have h1 : ¬ (ops.acquire = ops.release) := fun h => ops.release_ne_acquire h.symm
  simp only [handle, if_neg hen, hop, if_neg h1, if_true]

theorem handle_acquired (ops : LockOpCodes) (env : HandleEnv) (g : Statics)
    (s : SerialSections) (l : mtrace_lock_entry) (hen : env.mtrace_enable ≠ 0)
    (hop : l.op = ops.acquired) :
    handle ops env g s l
      = match LockManager.acquired g s.lock_manager_ l with
        | .ok (g1, lm1) => .returned g1 { s with lock_manager_ := lm1 }
        | .die msg => .died msg { g with acquired_misses := g.acquired_misses + 1 } s
        | .undefined => .undefined := by
  have h1 : ¬ (ops.acquired = ops.release) := fun h => ops.release_ne_acquired h.symm
  have h2 : ¬ (ops.acquired = ops.acquire) := fun h => ops.acquire_ne_acquired h.symm
  simp only [handle, if_neg hen, hop, if_neg h1, if_neg h2, if_true]

theorem handle_bad_op (ops : LockOpCodes) (env : HandleEnv) (g : Statics)
    (s : SerialSections) (l : mtrace_lock_entry) (hen : env.mtrace_enable ≠ 0)
    (h1 : l.op ≠ ops.release) (h2 : l.op ≠ ops.acquire) (h3 : l.op ≠ ops.acquired) :
    handle ops env g s l = .died "SerialSections::handle: bad op" g s := by
  simp only [handle, if_neg hen, if_neg h1, if_neg h2, if_neg h3]

theorem handle_release_last (ops : LockOpCodes) (env : HandleEnv) (g : Statics)
    (s : SerialSections) (l : mtrace_lock_entry) (ls : LockManager.LockState)
    (hen : env.mtrace_enable ≠ 0) (hop : l.op = ops.release)
    (hst : s.lock_manager_.state_ l.lock = some ls) (hd : ls.depth_ = 1) :
    handle ops env g s l
      = handleSection env g
          { s with lock_manager_ := { state_ := s.lock_manager_.state_.erase l.lock } } l
          { ls.ss_ with end_ := l.h.ts, release_cpu := l.h.cpu } := by
  rw [handle_release ops env g s l hen hop,
    LockManager.release_last g s.lock_manager_ l ls hst hd]

end SerialSections

/-- C13.  Missing label.  With tracing enabled, when a release entry brings
the depth of its lock from 1 to 0 (so that `lock_manager_.release` returns a
section) and the label directory has no object for the lock, `handle` ends
the run through `die`; at that moment the lock's state has been removed from
the table and the statistics map is exactly what it was before the call. -/
theorem C13_missing_label (ops : LockOpCodes) (env : HandleEnv) (g : Statics)
    (s : SerialSections) (l : mtrace_lock_entry) (ls : LockManager.LockState)
    (hen : env.mtrace_enable ≠ 0) (hop : l.op = ops.release)
    (hst : s.lock_manager_.state_ l.lock = some ls) (hd : ls.depth_ = 1)
    (hmiss : env.mtrace_label_map l.lock = none) :
    SerialSections.handle ops env g s l
      = .died "SerialSections::handle: missing %lx" g
          { lock_manager_ := { state_ := s.lock_manager_.state_.erase l.lock },
            stat_ := s.stat_ } := by
  rw [SerialSections.handle_release_last ops env g s l ls hen hop hst hd]
  simp only [SerialSections.handleSection, hmiss]

/-- Witness for C13: lock 5 is held once (acquired at 100), the directory is
empty, and the release at 200 ends the run with an empty statistics map. -/
theorem C13_missing_label_witness :
    SerialSections.handle demoOps (demoEnv fun _ => none) Statics.zero
        { lock_manager_ := { state_ := (LockManager.LockStateTable.set
            LockManager.LockStateTable.empty 5
            { ss_ := ⟨100, 0, 0, 0, 1000⟩, acquired_ts_ := 0, depth_ := 1 }) },
          stat_ := SerialSections.StatTable.empty }
        ⟨⟨200, 0⟩, 5, 2, "mylock"⟩
      = .died "SerialSections::handle: missing %lx" Statics.zero
          { lock_manager_ := { state_ := (LockManager.LockStateTable.erase
              (LockManager.LockStateTable.set LockManager.LockStateTable.empty 5
                { ss_ := ⟨100, 0, 0, 0, 1000⟩, acquired_ts_ := 0, depth_ := 1 }) 5) },
            stat_ := SerialSections.StatTable.empty } :=
  C13_missing_label demoOps (demoEnv fun _ => none) Statics.zero _ ⟨⟨200, 0⟩, 5, 2, "mylock"⟩
    { ss_ := ⟨100, 0, 0, 0, 1000⟩, acquired_ts_ := 0, depth_ := 1 }
    (by decide) rfl rfl rfl rfl

/-- C14.  Dispatch on the op.  With tracing enabled: an entry whose op is
none of the three lock operations ends the run through `die` ("bad op") with
the miss counters, the tracker and the statistics map as they were; an
acquire entry does what `LockManager::acquire` does, an acquired entry what
`LockManager::acquired` does, and a release entry what
`LockManager::release` does, followed, when a section is returned, by the
label lookup and `add`. -/
theorem C14_dispatch (ops : LockOpCodes) (env : HandleEnv) (g : Statics)
    (s : SerialSections) (l : mtrace_lock_entry) (hen : env.mtrace_enable ≠ 0) :
    (l.op ≠ ops.release → l.op ≠ ops.acquire → l.op ≠ ops.acquired →
        SerialSections.handle ops env g s l
          = .died "SerialSections::handle: bad op" g s)
      ∧ (l.op = ops.acquire →
        SerialSections.handle ops env g s l
          = match LockManager.acquire env.mtrace_call_pc env.uninit s.lock_manager_ l with
            | .ok lm1 => .returned g { s with lock_manager_ := lm1 }
            | .die msg => .died msg g s
            | .undefined => .undefined)
      ∧ (l.op = ops.acquired →
        SerialSections.handle ops env g s l
          = match LockManager.acquired g s.lock_manager_ l with
            | .ok (g1, lm1) => .returned g1 { s with lock_manager_ := lm1 }
            | .die msg => .died msg { g with acquired_misses := g.acquired_misses + 1 } s
            | .undefined => .undefined)
      ∧ (l.op = ops.release →
        SerialSections.handle ops env g s l
          = match LockManager.release g s.lock_manager_ l with
            | .ok (g1, lm1, some ss) =>
              SerialSections.handleSection env g1 { s with lock_manager_ := lm1 } l ss
            | .ok (g1, lm1, none) => .returned g1 { s with lock_manager_ := lm1 }
            | .die msg => .died msg { g with release_misses := g.release_misses + 1 } s
            | .undefined => .undefined) :=
  ⟨SerialSections.handle_bad_op ops env g s l hen,
   SerialSections.handle_acquire ops env g s l hen,
   SerialSections.handle_acquired ops env g s l hen,
   SerialSections.handle_release ops env g s l hen⟩

/-- Witness for C14: an entry with op 9 on a new object ends the run and
leaves the object new; an acquire entry (op 1) for lock 5 creates its state. -/
theorem C14_dispatch_witness :
    SerialSections.handle demoOps (demoEnv fun _ => none) Statics.zero SerialSections.ctor
        ⟨⟨10, 0⟩, 5, 9, ""⟩
        = .died "SerialSections::handle: bad op" Statics.zero SerialSections.ctor
      ∧ SerialSections.handle demoOps (demoEnv fun _ => none) Statics.zero SerialSections.ctor
        ⟨⟨10, 2⟩, 5, 1, ""⟩
        = .returned Statics.zero
            { lock_manager_ := { state_ := (LockManager.LockStateTable.set
                (LockManager.LockStateTable.set LockManager.LockStateTable.empty 5
                  (LockManager.LockState.ctor ⟨0, 0, 0, 0, 0⟩)) 5
                { ss_ := ⟨10, 0, 2, 0, 1002⟩, acquired_ts_ := 0, depth_ := 1 }) },
              stat_ := SerialSections.StatTable.empty } :=
  ⟨(C14_dispatch demoOps (demoEnv fun _ => none) Statics.zero SerialSections.ctor
      ⟨⟨10, 0⟩, 5, 9, ""⟩ (by decide)).1 (by decide) (by decide) (by decide),
   (C14_dispatch demoOps (demoEnv fun _ => none) Statics.zero SerialSections.ctor
      ⟨⟨10, 2⟩, 5, 1, ""⟩ (by decide)).2.1 rfl⟩

/-! ## Keys and their hash -/

namespace SerialSections

theorem hashWords_two (x y : Nat) :
    hashWords [x, y]
      = .ok (mix64 (add64 0xdeadbeef x) (add64 0xdeadbeef y) (add64 0x9e3779b97f4a7c13 2)).2.2 :=
  rfl

end SerialSections

/-- C15.  `SerialEq` is true exactly when both fields are equal, that is,
exactly when the two keys are the same key; it is reflexive, symmetric and
transitive; two keys with the same `lock_id` and different `obj_id` are not
equated, and a record stored under one of them in the statistics map is not
found under the other. -/
theorem C15_serialEq (s1 s2 s3 : SerialSections.SerialSectionKey)
    (m : SerialSections.StatTable) (v : SerialSections.SerialSectionStat) :
    (SerialSections.SerialEq s1 s2 = true ↔ s1.lock_id = s2.lock_id ∧ s1.obj_id = s2.obj_id)
      ∧ (SerialSections.SerialEq s1 s2 = true ↔ s1 = s2)
      ∧ SerialSections.SerialEq s1 s1 = true
      ∧ (SerialSections.SerialEq s1 s2 = true → SerialSections.SerialEq s2 s1 = true)
      ∧ (SerialSections.SerialEq s1 s2 = true → SerialSections.SerialEq s2 s3 = true →
          SerialSections.SerialEq s1 s3 = true)
      ∧ (s1.lock_id = s2.lock_id → s1.obj_id ≠ s2.obj_id →
          SerialSections.SerialEq s1 s2 = false
            ∧ (SerialSections.StatTable.set m s1 v) s2 = m s2) := by
  refine ⟨SerialSections.serialEq_iff s1 s2, SerialSections.serialEq_iff_eq s1 s2,
    (SerialSections.serialEq_iff_eq s1 s1).mpr rfl, ?_, ?_, ?_⟩
  · intro h
    exact (SerialSections.serialEq_iff_eq s2 s1).mpr ((SerialSections.serialEq_iff_eq s1 s2).mp h).symm
  · intro h12 h23
    exact (SerialSections.serialEq_iff_eq s1 s3).mpr
      (((SerialSections.serialEq_iff_eq s1 s2).mp h12).trans
        ((SerialSections.serialEq_iff_eq s2 s3).mp h23))
  · intro _ hobj
    have hne : s2 ≠ s1 := fun h => hobj (by rw [h])
    have hfalse : SerialSections.SerialEq s1 s2 = false := by
      cases hb : SerialSections.SerialEq s1 s2 with
      | false => rfl
      | true => exact absurd ((SerialSections.serialEq_iff s1 s2).mp hb).2 hobj
    exact ⟨hfalse, SerialSections.StatTable.stat_set_other m s1 s2 v hne⟩

/-- Witness for C15: keys (5, 1) and (5, 2) are different map keys, and
(5, 1) equals itself. -/
theorem C15_serialEq_witness :
    SerialSections.SerialEq ⟨5, 1⟩ ⟨5, 2⟩ = false
      ∧ (SerialSections.StatTable.set SerialSections.StatTable.empty ⟨5, 1⟩
          SerialSections.SerialSectionStat.ctor) ⟨5, 2⟩ = none
      ∧ SerialSections.SerialEq ⟨5, 1⟩ ⟨5, 1⟩ = true :=
  ⟨((C15_serialEq ⟨5, 1⟩ ⟨5, 2⟩ ⟨5, 2⟩ SerialSections.StatTable.empty
      SerialSections.SerialSectionStat.ctor).2.2.2.2.2 rfl (by decide)).1,
   ((C15_serialEq ⟨5, 1⟩ ⟨5, 2⟩ ⟨5, 2⟩ SerialSections.StatTable.empty
      SerialSections.SerialSectionStat.ctor).2.2.2.2.2 rfl (by decide)).2,
   (C15_serialEq ⟨5, 1⟩ ⟨5, 2⟩ ⟨5, 2⟩ SerialSections.StatTable.empty
      SerialSections.SerialSectionStat.ctor).2.2.1⟩

/-- C17.  `SerialHash` on the key `(lock_id, obj_id)`: the assertion holds,
the loop `while (len >= 3)` runs zero times and leaves both words ahead, and
the value returned is the third variable after one `mix64` on
`a = 0xdeadbeef + lock_id`, `b = 0xdeadbeef + obj_id` and
`c = 0x9e3779b97f4a7c13 + 2`, the additions being modulo `2^64`.  Two keys
that `SerialEq` equates have the same hash value. -/
theorem C17_serialHash (s s2 : SerialSections.SerialSectionKey) :
    SerialSections.SerialHash s
        = .ok (SerialSections.mix64 ((0xdeadbeef + s.lock_id) % 2 ^ 64)
            ((0xdeadbeef + s.obj_id) % 2 ^ 64) ((0x9e3779b97f4a7c13 + 2) % 2 ^ 64)).2.2
      ∧ SerialSections.hashLoop 0xdeadbeef 0xdeadbeef 0x9e3779b97f4a7c13 0
          [s.lock_id, s.obj_id]
        = { a := 0xdeadbeef, b := 0xdeadbeef, c := 0x9e3779b97f4a7c13,
            k := [s.lock_id, s.obj_id], rounds := 0 }
      ∧ (SerialSections.SerialEq s s2 = true →
          SerialSections.SerialHash s = SerialSections.SerialHash s2) := by
  refine ⟨SerialSections.hashWords_two s.lock_id s.obj_id, rfl, fun h => ?_⟩
  rw [(SerialSections.serialEq_iff_eq s s2).mp h]

/-- Witness for C17: the key (5, 1) hashes to 6490953255414088270, and a
key equated with it hashes alike. -/
theorem C17_serialHash_witness :
    SerialSections.SerialHash ⟨5, 1⟩ = .ok 6490953255414088270
      ∧ SerialSections.SerialHash ⟨5, 1⟩ = SerialSections.SerialHash ⟨5, 1⟩ :=
  ⟨(C17_serialHash ⟨5, 1⟩ ⟨5, 1⟩).1.trans (by decide),
   (C17_serialHash ⟨5, 1⟩ ⟨5, 1⟩).2.2 rfl⟩

/-! ## From a release to the statistics -/

namespace SerialSections

theorem StatTable.stat_set_set (m : StatTable) (k : SerialSectionKey) (v w : SerialSectionStat) :
    StatTable.set (StatTable.set m k v) k w = StatTable.set m k w := by
  funext x
  by_cases hx : SerialEq x k = true <;> simp [StatTable.set, hx]

theorem handleSection_found (env : HandleEnv) (g : Statics) (s : SerialSections)
    (l : mtrace_lock_entry) (ss : SerialSection) (obj : MtraceObject)
    (hlab : env.mtrace_label_map l.lock = some obj) :
    handleSection env g s l ss
      = match ((s.stat_ ⟨l.lock, obj.id_⟩).getD (SerialSectionStat.ctor.init obj.id_ l)).add ss with
        | .ok st1 => .returned g { s with stat_ := s.stat_.set ⟨l.lock, obj.id_⟩ st1 }
        | .die msg => .died msg g
            { s with stat_ :=
                match s.stat_ ⟨l.lock, obj.id_⟩ with
                | none => s.stat_.set ⟨l.lock, obj.id_⟩ (SerialSectionStat.ctor.init obj.id_ l)
                | some _ => s.stat_ }
        | .undefined => .undefined := by
  unfold handleSection
  simp only [hlab]
  cases hfind : s.stat_ ⟨l.lock, obj.id_⟩ with
  | none =>
    simp only [StatTable.stat_set_same, Option.getD_none]
    cases (SerialSectionStat.ctor.init obj.id_ l).add ss with
    | ok st1 => simp only [StatTable.stat_set_set]
    | die msg => rfl
    | undefined => rfl
  | some st =>
    simp only [hfind, Option.getD_some]

theorem add_keeps_identity (st st1 : SerialSectionStat) (ss : SerialSection)
    (h : st.add ss = .ok st1) :
    st1.lock_id = st.lock_id ∧ st1.obj_id = st.obj_id ∧ st1.name = st.name := by
  unfold SerialSectionStat.add at h
  split at h
  · injection h with h; subst h; exact ⟨rfl, rfl, rfl⟩
  · split at h
    · exact Outcome.noConfusion h
    · injection h with h; subst h; exact ⟨rfl, rfl, rfl⟩

end SerialSections

/-- Counterexample to C12 as stated: scenario A with a label directory that
resolves lock 5 to the object with id 3 and display name "mylock", while the
lock entries carry the label "spin".  The record stored under key (5, 3) is
named "spin": the name is the `str` of the release entry, not the display
name of the object. -/
theorem C12_counterexample_name_from_entry :
    SerialSections.statAfter demoOps Statics.zero SerialSections.ctor
        [(demoEnv (fun a => if a = 5 then some ⟨3, "mylock"⟩ else none), ⟨⟨100, 0⟩, 5, 1, "spin"⟩),
         (demoEnv (fun a => if a = 5 then some ⟨3, "mylock"⟩ else none), ⟨⟨105, 0⟩, 5, 3, "spin"⟩),
         (demoEnv (fun a => if a = 5 then some ⟨3, "mylock"⟩ else none), ⟨⟨200, 0⟩, 5, 2, "spin"⟩)]
        ⟨5, 3⟩
      = some { lock_id := 5, obj_id := 3, name := "spin", ts_cycles := 95, acquires := 1,
               mismatches := 0 } := by
  decide

/-- C12, amended.  With tracing enabled, let a release entry `l` bring the
depth of its lock from 1 to 0 and let the label directory resolve the lock
to the object `obj`.  The record used is the one stored under the key
`(l.lock, obj.id_)` or, if there is none, a new record with that lock id and
object id, zero counters and the label `l.str` of the entry as its name.
`handle` applies `add` to that record and the returned section: if `add`
returns, `handle` returns with the lock's state removed and the updated
record, which keeps ids and name, stored under the key; if `add` ends the
run, so does `handle`.  Scenario A with entries labelled "mylock" gives
name "mylock", cycles 95, acquires 1, mismatches 0. -/
theorem C12_release_updates_stat (ops : LockOpCodes) (env : HandleEnv) (g : Statics)
    (s : SerialSections) (l : mtrace_lock_entry) (ls : LockManager.LockState)
    (obj : MtraceObject)
    (hen : env.mtrace_enable ≠ 0) (hop : l.op = ops.release)
    (hst : s.lock_manager_.state_ l.lock = some ls) (hd : ls.depth_ = 1)
    (hlab : env.mtrace_label_map l.lock = some obj) :
    (SerialSections.handle ops env g s l
        = match ((s.stat_ ⟨l.lock, obj.id_⟩).getD
              { lock_id := l.lock, obj_id := obj.id_, name := l.str, ts_cycles := 0,
                acquires := 0, mismatches := 0 }).add
              { ls.ss_ with end_ := l.h.ts, release_cpu := l.h.cpu } with
          | .ok st1 => .returned g
              { lock_manager_ := { state_ := s.lock_manager_.state_.erase l.lock },
                stat_ := s.stat_.set ⟨l.lock, obj.id_⟩ st1 }
          | .die msg => .died msg g
              { lock_manager_ := { state_ := s.lock_manager_.state_.erase l.lock },
                stat_ :=
                  match s.stat_ ⟨l.lock, obj.id_⟩ with
                  | none => s.stat_.set ⟨l.lock, obj.id_⟩
                      { lock_id := l.lock, obj_id := obj.id_, name := l.str, ts_cycles := 0,
                        acquires := 0, mismatches := 0 }
                  | some _ => s.stat_ }
          | .undefined => .undefined)
      ∧ (∀ st st1 : SerialSections.SerialSectionStat,
          st.add { ls.ss_ with end_ := l.h.ts, release_cpu := l.h.cpu } = .ok st1 →
            st1.lock_id = st.lock_id ∧ st1.obj_id = st.obj_id ∧ st1.name = st.name)
      ∧ SerialSections.statAfter demoOps Statics.zero SerialSections.ctor
          [(demoEnv (fun a => if a = 5 then some ⟨3, "obj"⟩ else none),
              ⟨⟨100, 0⟩, 5, 1, "mylock"⟩),
           (demoEnv (fun a => if a = 5 then some ⟨3, "obj"⟩ else none),
              ⟨⟨105, 0⟩, 5, 3, "mylock"⟩),
           (demoEnv (fun a => if a = 5 then some ⟨3, "obj"⟩ else none),
              ⟨⟨200, 0⟩, 5, 2, "mylock"⟩)]
          ⟨5, 3⟩
        = some { lock_id := 5, obj_id := 3, name := "mylock", ts_cycles := 95, acquires := 1,
                 mismatches := 0 } := by
  refine ⟨?_, fun st st1 h => SerialSections.add_keeps_identity st st1 _ h, by decide⟩
  rw [SerialSections.handle_release_last ops env g s l ls hen hop hst hd,
    SerialSections.handleSection_found env g _ l _ obj hlab]
  rfl

/-- Witness for C12: lock 5 is held once since 105 on cpu 0, the directory
resolves it to object 3, the map is empty; the release at 200 on cpu 0,
labelled "mylock", stores the record (5, 3, "mylock", 95, 1, 0). -/
theorem C12_release_updates_stat_witness :
    SerialSections.handle demoOps (demoEnv (fun a => if a = 5 then some ⟨3, "obj"⟩ else none))
        Statics.zero
        { lock_manager_ := { state_ := (LockManager.LockStateTable.set
            LockManager.LockStateTable.empty 5
            { ss_ := ⟨105, 0, 0, 0, 1000⟩, acquired_ts_ := 105, depth_ := 1 }) },
          stat_ := SerialSections.StatTable.empty }
        ⟨⟨200, 0⟩, 5, 2, "mylock"⟩
      = .returned Statics.zero
          { lock_manager_ := { state_ := (LockManager.LockStateTable.erase
              (LockManager.LockStateTable.set LockManager.LockStateTable.empty 5
                { ss_ := ⟨105, 0, 0, 0, 1000⟩, acquired_ts_ := 105, depth_ := 1 }) 5) },
            stat_ := SerialSections.StatTable.set SerialSections.StatTable.empty ⟨5, 3⟩
              { lock_id := 5, obj_id := 3, name := "mylock", ts_cycles := 95, acquires := 1,
                mismatches := 0 } } :=
  (C12_release_updates_stat demoOps
    (demoEnv (fun a => if a = 5 then some ⟨3, "obj"⟩ else none)) Statics.zero
    { lock_manager_ := { state_ := (LockManager.LockStateTable.set
        LockManager.LockStateTable.empty 5
        { ss_ := ⟨105, 0, 0, 0, 1000⟩, acquired_ts_ := 105, depth_ := 1 }) },
      stat_ := SerialSections.StatTable.empty }
    ⟨⟨200, 0⟩, 5, 2, "mylock"⟩
    { ss_ := ⟨105, 0, 0, 0, 1000⟩, acquired_ts_ := 105, depth_ := 1 } ⟨3, "obj"⟩
    (by decide) rfl rfl rfl rfl).1

/-! ## Invariants of the tracker -/

namespace LockManager

theorem feed_cons_inv (g : Statics) (lm : LockManager) (c : TrackerCall)
    (cs : List TrackerCall) (r : Statics × LockManager × List (Option SerialSection))
    (h : feed g lm (c :: cs) = .ok r) :
    ∃ r1 r2, feed g lm [c] = .ok r1 ∧ feed r1.1 r1.2.1 cs = .ok r2
      ∧ r = (r2.1, r2.2.1, r1.2.2 ++ r2.2.2) := by
  have happ := feed_append [c] cs g lm
  rw [List.singleton_append, h] at happ
  cases h1 : feed g lm [c] with
  | ok r1 =>
    rw [h1, Outcome.bind_ok] at happ
    cases h2 : feed r1.1 r1.2.1 cs with
    | ok r2 =>
      rw [h2, Outcome.bind_ok] at happ
      exact ⟨r1, r2, rfl, h2, by injection happ⟩
    | die m => rw [h2] at happ; exact Outcome.noConfusion happ
    | undefined => rw [h2] at happ; exact Outcome.noConfusion happ
  | die m => rw [h1] at happ; exact Outcome.noConfusion happ
  | undefined => rw [h1] at happ; exact Outcome.noConfusion happ

theorem feed_single_acquire (g : Statics) (lm : LockManager) (pc : Nat → Nat)
    (u : SerialSection) (l : mtrace_lock_entry) :
    feed g lm [TrackerCall.acquire pc u l]
      = (acquire pc u lm l).bind fun lm1 => .ok (g, lm1, []) := rfl

theorem feed_single_acquired (g : Statics) (lm : LockManager) (l : mtrace_lock_entry) :
    feed g lm [TrackerCall.acquired l]
      = (acquired g lm l).bind fun r => .ok (r.1, r.2, []) := rfl

theorem feed_single_release (g : Statics) (lm : LockManager) (l : mtrace_lock_entry) :
    feed g lm [TrackerCall.release l]
      = (release g lm l).bind fun r => .ok (r.1, r.2.1, [r.2.2]) := rfl

/-- What one call that returns has done: which entry of the table it wrote,
and what it returned. -/
theorem feed_single_cases (g : Statics) (lm : LockManager) (c : TrackerCall)
    (r : Statics × LockManager × List (Option SerialSection))
    (h : feed g lm [c] = .ok r) :
    (∃ pc u l, c = .acquire pc u l ∧ lm.state_ l.lock = none ∧ r = (g,
        { state_ := lm.state_.set l.lock
            ((LockState.ctor u).acquire pc l) }, []))
    ∨ (∃ pc u l ls, c = .acquire pc u l ∧ lm.state_ l.lock = some ls ∧ r = (g,
        { state_ := lm.state_.set l.lock (ls.acquire pc l) }, []))
    ∨ (∃ l, c = .acquired l ∧ lm.state_ l.lock = none ∧ g.acquired_misses + 1 < 10 ∧ r =
        ({ g with acquired_misses := g.acquired_misses + 1 }, lm, []))
    ∨ (∃ l ls, c = .acquired l ∧ lm.state_ l.lock = some ls ∧ r = (g,
        { state_ := lm.state_.set l.lock (ls.acquired l) }, []))
    ∨ (∃ l ls, c = .release l ∧ lm.state_ l.lock = some ls ∧ (ls.release l).depth_ = 0 ∧ r =
        (g, { state_ := lm.state_.erase l.lock }, [some (ls.release l).ss_]))
    ∨ (∃ l ls, c = .release l ∧ lm.state_ l.lock = some ls ∧ (ls.release l).depth_ ≠ 0 ∧ r =
        (g, { state_ := lm.state_.set l.lock (ls.release l) }, [none])) := by
  cases c with
  | acquire pc u l =>
    rw [feed_single_acquire] at h
    cases hst : lm.state_ l.lock with
    | none =>
      left
      refine ⟨pc, u, l, rfl, hst, ?_⟩
      simp only [acquire, hst, LockStateTable.insert, Bool.not_true, Bool.false_eq_true,
        if_false, Outcome.bind_ok, LockStateTable.set_set] at h
      injection h with h
      exact h.symm
    | some ls =>
      right; left
      refine ⟨pc, u, l, ls, rfl, hst, ?_⟩
      simp only [acquire, hst, Outcome.bind_ok] at h
      injection h with h
      exact h.symm
  | acquired l =>
    rw [feed_single_acquired] at h
    cases hst : lm.state_ l.lock with
    | none =>
      right; right; left
      by_cases hm : g.acquired_misses + 1 ≥ 10
      · simp only [acquired, hst, hm, if_true, Outcome.bind_die] at h
        exact Outcome.noConfusion h
      · simp only [acquired, hst, hm, if_false, Outcome.bind_ok] at h
        injection h with h
        exact ⟨l, rfl, hst, by omega, h.symm⟩
    | some ls =>
      right; right; right; left
      simp only [acquired, hst, Outcome.bind_ok] at h
      injection h with h
      exact ⟨l, ls, rfl, hst, h.symm⟩
  | release l =>
    rw [feed_single_release] at h
    cases hst : lm.state_ l.lock with
    | none =>
      by_cases hm : g.release_misses + 1 ≥ 20
      · simp only [release, hst, hm, if_true, Outcome.bind_die] at h
        exact Outcome.noConfusion h
      · simp only [release, hst, hm, if_false, Outcome.bind_undefined] at h
        exact Outcome.noConfusion h
    | some ls =>
      by_cases hd : (ls.release l).depth_ = 0
      · right; right; right; right; left
        simp only [release, hst, hd, if_true, Outcome.bind_ok] at h
        injection h with h
        exact ⟨l, ls, rfl, hst, hd, h.symm⟩
      · right; right; right; right; right
        simp only [release, hst, hd, if_false, Outcome.bind_ok] at h
        injection h with h
        exact ⟨l, ls, rfl, hst, hd, h.symm⟩

end LockManager

namespace LockManager

theorem LockState.acquire_depth (pc : Nat → Nat) (ls : LockState) (l : mtrace_lock_entry) :
    (ls.acquire pc l).depth_ = toInt32 (ls.depth_ + 1) := by
  unfold LockState.acquire
  split <;> rfl

theorem LockState.acquired_depth (ls : LockState) (l : mtrace_lock_entry) :
    (ls.acquired l).depth_ = ls.depth_ := by
  unfold LockState.acquired
  split <;> rfl

theorem LockState.release_depth (ls : LockState) (l : mtrace_lock_entry) :
    (ls.release l).depth_ = toInt32 (ls.depth_ - 1) := by
  simp only [LockState.release]
  split <;> rfl

theorem depthOf_set (m : LockStateTable) (k id : Nat) (v : LockState) :
    depthOf { state_ := m.set k v } id = if id = k then v.depth_ else depthOf { state_ := m } id := by
  by_cases h : id = k <;> simp [depthOf, LockStateTable.set, h]

theorem depthOf_erase (m : LockStateTable) (k id : Nat) :
    depthOf { state_ := m.erase k } id = if id = k then 0 else depthOf { state_ := m } id := by
  by_cases h : id = k <;> simp [depthOf, LockStateTable.erase, h]

theorem depthOf_of_some (lm : LockManager) (id : Nat) (ls : LockState)
    (h : lm.state_ id = some ls) : depthOf lm id = ls.depth_ := by
  simp [depthOf, h]

theorem depthOf_of_none (lm : LockManager) (id : Nat) (h : lm.state_ id = none) :
    depthOf lm id = 0 := by
  simp [depthOf, h]

theorem nesting_cons (id : Nat) (c : TrackerCall) (cs : List TrackerCall) :
    nesting id (c :: cs) = nesting id [c] + nesting id cs := by
  cases c <;> simp [nesting]

theorem nesting_acquire (id : Nat) (pc : Nat → Nat) (u : SerialSection)
    (l : mtrace_lock_entry) :
    nesting id [TrackerCall.acquire pc u l] = if l.lock = id then 1 else 0 := by
  simp [nesting]

theorem nesting_acquired (id : Nat) (l : mtrace_lock_entry) :
    nesting id [TrackerCall.acquired l] = 0 := by
  simp [nesting]

theorem nesting_release (id : Nat) (l : mtrace_lock_entry) :
    nesting id [TrackerCall.release l] = if l.lock = id then -1 else 0 := by
  simp [nesting]

/-- Writing the entry of `k`, with a depth in range that accounts for the
change `d` of the nesting of `k`, keeps the depths in range and in step with
the nesting. -/
theorem depth_after_set (lm : LockManager) (k : Nat) (v : LockState) (d : Nat → Int)
    (hinv : ∀ id ls, lm.state_ id = some ls → 1 ≤ ls.depth_ ∧ ls.depth_ < 2147483648)
    (hv : 1 ≤ v.depth_ ∧ v.depth_ < 2147483648)
    (hk : v.depth_ = depthOf lm k + d k) (hother : ∀ id, id ≠ k → d id = 0) :
    (∀ id ls, (lm.state_.set k v) id = some ls → 1 ≤ ls.depth_ ∧ ls.depth_ < 2147483648)
      ∧ ∀ id, depthOf { state_ := lm.state_.set k v } id = depthOf lm id + d id := by
  constructor
  · intro id ls hls
    by_cases hid : id = k
    · subst hid
      rw [LockStateTable.set_same] at hls
      injection hls with hls
      rw [← hls]; exact hv
    · rw [LockStateTable.set_other _ _ _ _ hid] at hls
      exact hinv id ls hls
  · intro id
    rw [depthOf_set]
    by_cases hid : id = k
    · subst hid
      simp only [if_true]
      exact hk
    · simp only [hid, if_false, hother id hid, add_zero]

/-- Erasing the entry of `k`, when that accounts for the change `d` of the
nesting of `k`, keeps the depths in range and in step with the nesting. -/
theorem depth_after_erase (lm : LockManager) (k : Nat) (d : Nat → Int)
    (hinv : ∀ id ls, lm.state_ id = some ls → 1 ≤ ls.depth_ ∧ ls.depth_ < 2147483648)
    (hk : 0 = depthOf lm k + d k) (hother : ∀ id, id ≠ k → d id = 0) :
    (∀ id ls, (lm.state_.erase k) id = some ls → 1 ≤ ls.depth_ ∧ ls.depth_ < 2147483648)
      ∧ ∀ id, depthOf { state_ := lm.state_.erase k } id = depthOf lm id + d id := by
  constructor
  · intro id ls hls
    by_cases hid : id = k
    · subst hid
      rw [LockStateTable.erase_same] at hls
      exact Option.noConfusion hls
    · rw [LockStateTable.erase_other _ _ _ hid] at hls
      exact hinv id ls hls
  · intro id
    rw [depthOf_erase]
    by_cases hid : id = k
    · subst hid
      simp only [if_true]
      exact hk
    · simp only [hid, if_false, hother id hid, add_zero]

/-- One call that returns, on a table whose depths are between 1 and
`2^31 - 1` and with room for the call in the range of `int`, leaves such a
table and moves the depth of each lock by what the call contributes to its
nesting. -/
theorem step_depth (g : Statics) (lm : LockManager) (c : TrackerCall)
    (r : Statics × LockManager × List (Option SerialSection))
    (hinv : ∀ id ls, lm.state_ id = some ls → 1 ≤ ls.depth_ ∧ ls.depth_ < 2147483648)
    (hroom : ∀ id, depthOf lm id + nesting id [c] < 2147483648)
    (h : feed g lm [c] = .ok r) :
    (∀ id ls, r.2.1.state_ id = some ls → 1 ≤ ls.depth_ ∧ ls.depth_ < 2147483648)
      ∧ ∀ id, depthOf r.2.1 id = depthOf lm id + nesting id [c] := by
  rcases feed_single_cases g lm c r h with
    ⟨pc, u, l, hc, hst, hr⟩ | ⟨pc, u, l, ls, hc, hst, hr⟩ | ⟨l, hc, hst, _, hr⟩
    | ⟨l, ls, hc, hst, hr⟩ | ⟨l, ls, hc, hst, hd, hr⟩ | ⟨l, ls, hc, hst, hd, hr⟩
  · subst hc; subst hr
    have hdep : ((LockState.ctor u).acquire pc l).depth_ = 1 := by
      rw [LockState.acquire_depth]
      exact toInt32_one
    refine depth_after_set lm l.lock _ (fun id => nesting id [TrackerCall.acquire pc u l])
      hinv (by rw [hdep]; decide) ?_ ?_
    · beta_reduce
      rw [hdep, depthOf_of_none lm _ hst, nesting_acquire]
      simp
    · intro id hid
      beta_reduce
      rw [nesting_acquire]
      have hid' : ¬ l.lock = id := fun h => hid h.symm
      simp [hid']
  · subst hc; subst hr
    have hls := hinv _ _ hst
    have hroom1 := hroom l.lock
    rw [depthOf_of_some lm _ ls hst, nesting_acquire] at hroom1
    simp only [if_true] at hroom1
    have hdep : (ls.acquire pc l).depth_ = ls.depth_ + 1 := by
      rw [LockState.acquire_depth]
      exact toInt32_of_range _ (by omega) (by omega)
    refine depth_after_set lm l.lock _ (fun id => nesting id [TrackerCall.acquire pc u l])
      hinv (by rw [hdep]; omega) ?_ ?_
    · beta_reduce
      rw [hdep, depthOf_of_some lm _ ls hst, nesting_acquire]
      simp
    · intro id hid
      beta_reduce
      rw [nesting_acquire]
      have hid' : ¬ l.lock = id := fun h => hid h.symm
      simp [hid']
  · subst hc; subst hr
    exact ⟨hinv, fun id => by rw [nesting_acquired, add_zero]⟩
  · subst hc; subst hr
    have hls := hinv _ _ hst
    refine depth_after_set lm l.lock _ (fun id => nesting id [TrackerCall.acquired l])
      hinv (by rw [LockState.acquired_depth]; exact hls) ?_ ?_
    · beta_reduce
      rw [LockState.acquired_depth, depthOf_of_some lm _ ls hst, nesting_acquired, add_zero]
    · intro id _
      exact nesting_acquired id l
  · subst hc; subst hr
    have hls := hinv _ _ hst
    rw [LockState.release_depth, toInt32_of_range _ (by omega) (by omega)] at hd
    refine depth_after_erase lm l.lock (fun id => nesting id [TrackerCall.release l])
      hinv ?_ ?_
    · beta_reduce
      rw [depthOf_of_some lm _ ls hst, nesting_release]
      simp only [if_true]
      omega
    · intro id hid
      beta_reduce
      rw [nesting_release]
      have hid' : ¬ l.lock = id := fun h => hid h.symm
      simp [hid']
  · subst hc; subst hr
    have hls := hinv _ _ hst
    have hdep : (ls.release l).depth_ = ls.depth_ - 1 := by
      rw [LockState.release_depth]
      exact toInt32_of_range _ (by omega) (by omega)
    rw [hdep] at hd
    refine depth_after_set lm l.lock _ (fun id => nesting id [TrackerCall.release l])
      hinv (by rw [hdep]; omega) ?_ ?_
    · beta_reduce
      rw [hdep, depthOf_of_some lm _ ls hst, nesting_release]
      simp only [if_true]
      omega
    · intro id hid
      beta_reduce
      rw [nesting_release]
      have hid' : ¬ l.lock = id := fun h => hid h.symm
      simp [hid']

theorem nesting_take_succ (id : Nat) (c : TrackerCall) (cs : List TrackerCall) (k : Nat) :
    nesting id ((c :: cs).take (k + 1)) = nesting id [c] + nesting id (cs.take k) := by
  rw [List.take_succ_cons, nesting_cons]

theorem feed_depth (cs : List TrackerCall) (g : Statics) (lm : LockManager)
    (r : Statics × LockManager × List (Option SerialSection))
    (hinv : ∀ id ls, lm.state_ id = some ls → 1 ≤ ls.depth_ ∧ ls.depth_ < 2147483648)
    (hroom : ∀ k id, depthOf lm id + nesting id (cs.take k) < 2147483648)
    (h : feed g lm cs = .ok r) :
    (∀ id ls, r.2.1.state_ id = some ls → 1 ≤ ls.depth_ ∧ ls.depth_ < 2147483648)
      ∧ ∀ id, depthOf r.2.1 id = depthOf lm id + nesting id cs := by
  induction cs generalizing g lm r with
  | nil =>
    rw [feed_nil] at h
    injection h with h
    subst h
    exact ⟨hinv, fun id => by simp [nesting]⟩
  | cons c cs ih =>
    obtain ⟨r1, r2, h1, h2, hr⟩ := feed_cons_inv g lm c cs r h
    have hroom1 : ∀ id, depthOf lm id + nesting id [c] < 2147483648 := by
      intro id
      have := hroom 1 id
      rw [nesting_take_succ, List.take_zero] at this
      simpa [nesting] using this
    have hstep := step_depth g lm c r1 hinv hroom1 h1
    have hroom2 : ∀ k id, depthOf r1.2.1 id + nesting id (cs.take k) < 2147483648 := by
      intro k id
      have := hroom (k + 1) id
      rw [nesting_take_succ] at this
      rw [hstep.2 id]
      omega
    have hrest := ih r1.1 r1.2.1 r2 hstep.1 hroom2 h2
    subst hr
    refine ⟨hrest.1, fun id => ?_⟩
    show depthOf r2.2.1 id = _
    rw [hrest.2 id, hstep.2 id, nesting_cons id c cs]
    ring

end LockManager

namespace LockManager

theorem nesting_le_length (id : Nat) (cs : List TrackerCall) :
    nesting id cs ≤ (cs.length : Int) := by
  induction cs with
  | nil => simp [nesting]
  | cons c cs ih =>
    rw [nesting_cons]
    have h1 : nesting id [c] ≤ 1 := by
      cases c with
      | acquire pc u l => rw [nesting_acquire]; split <;> decide
      | acquired l => rw [nesting_acquired]; decide
      | release l => rw [nesting_release]; split <;> decide
    simp only [List.length_cons]
    push_cast
    omega

/-- In a trace of fewer than `2^31` calls no lock is ever nested `2^31`
deep. -/
theorem nesting_take_lt (cs : List TrackerCall) (hlen : cs.length < 2147483648)
    (k id : Nat) : nesting id (cs.take k) < 2 ^ 31 := by
  have h1 := nesting_le_length id (cs.take k)
  have h2 : (cs.take k).length ≤ cs.length := by
    rw [List.length_take]
    exact Nat.min_le_right _ _
  norm_num
  omega

end LockManager

/-- C16.  Tracker invariant.  Start from a new `LockManager` and let the
calls `cs` all return (in particular every release found its lock in the
table), no lock being nested deeper than the range of the `int` that holds
its depth at any point of `cs` (nesting depth, acquire calls minus release
calls, below `2^31`).  Then every entry of the table has depth at least 1,
and that depth is the nesting depth of its lock; a lock without entry has
nesting depth 0.  So a lock has a state exactly when its nesting depth is
positive, and no nesting depth is negative.  From the table reached, a
further release of a lock that has a state returns and lowers its depth by
one, and a further acquire of a lock nested less than `2^31 - 1` deep
returns and raises its depth by one. -/
theorem C16_tracker_invariant (g : Statics) (cs : List TrackerCall)
    (r : Statics × LockManager × List (Option SerialSection))
    (hroom : ∀ k id, nesting id (cs.take k) < 2 ^ 31)
    (h : LockManager.feed g LockManager.ctor cs = .ok r) :
    (∀ id ls, r.2.1.state_ id = some ls → 1 ≤ ls.depth_ ∧ ls.depth_ = nesting id cs)
      ∧ (∀ id, r.2.1.state_ id = none → nesting id cs = 0)
      ∧ (∀ id, (r.2.1.state_ id).isSome = true ↔ 0 < nesting id cs)
      ∧ (∀ id, 0 ≤ nesting id cs)
      ∧ (∀ l ls, r.2.1.state_ l.lock = some ls →
          ∃ lm1 o, LockManager.release r.1 r.2.1 l = .ok (r.1, lm1, o)
            ∧ lm1.depthOf l.lock = nesting l.lock cs - 1)
      ∧ (∀ pc u l, nesting l.lock cs < 2 ^ 31 - 1 →
          ∃ lm1, LockManager.acquire pc u r.2.1 l = .ok lm1
            ∧ lm1.depthOf l.lock = nesting l.lock cs + 1) := by
  have hzero : ∀ id, LockManager.depthOf LockManager.ctor id = 0 := fun id => rfl
  have key := LockManager.feed_depth cs g LockManager.ctor r
    (fun id ls hls => Option.noConfusion hls)
    (fun k id => by
      have := hroom k id
      norm_num at this
      rw [hzero, zero_add]
      exact this) h
  have hsome : ∀ id ls, r.2.1.state_ id = some ls →
      1 ≤ ls.depth_ ∧ ls.depth_ = nesting id cs := by
    intro id ls hls
    have h2 := key.2 id
    rw [LockManager.depthOf_of_some _ _ _ hls, hzero, zero_add] at h2
    exact ⟨(key.1 id ls hls).1, h2⟩
  have hnone : ∀ id, r.2.1.state_ id = none → nesting id cs = 0 := by
    intro id hid
    have h2 := key.2 id
    rw [LockManager.depthOf_of_none _ _ hid, hzero, zero_add] at h2
    exact h2.symm
  refine ⟨hsome, hnone, fun id => ?_, fun id => ?_, fun l ls hst => ?_, fun pc u l hlt => ?_⟩
  · cases hst : r.2.1.state_ id with
    | none => simp [hnone id hst]
    | some ls =>
      have := hsome id ls hst
      simp only [Option.isSome_some, true_iff]
      omega
  · cases hst : r.2.1.state_ id with
    | none => rw [hnone id hst]
    | some ls =>
      have := hsome id ls hst
      omega
  · have hb := key.1 l.lock ls hst
    have hn := (hsome l.lock ls hst).2
    by_cases hd : ls.depth_ = 1
    · refine ⟨_, _, LockManager.release_last r.1 r.2.1 l ls hst hd, ?_⟩
      rw [LockManager.depthOf_erase]
      simp only [if_true]
      omega
    · refine ⟨_, _, LockManager.release_nested r.1 r.2.1 l ls hst hd (by omega) hb.2, ?_⟩
      rw [LockManager.depthOf_set]
      simp only [if_true]
      omega
  · norm_num at hlt
    cases hst : r.2.1.state_ l.lock with
    | none =>
      refine ⟨_, LockManager.acquire_fresh pc u r.2.1 l hst, ?_⟩
      rw [LockManager.depthOf_set]
      simp only [if_true]
      rw [hnone l.lock hst]
      rfl
    | some ls =>
      have hb := key.1 l.lock ls hst
      have hn := (hsome l.lock ls hst).2
      refine ⟨_, LockManager.acquire_held pc u r.2.1 l ls hst (by omega) (by omega)
        (by omega), ?_⟩
      rw [LockManager.depthOf_set]
      simp only [if_true]
      omega

/-- Witness for C16: after the example trace lock 5, acquired twice and
released once, keeps a state of depth 1, and lock 7, acquired and released,
has none. -/
theorem C16_tracker_invariant_witness :
    ((1 : Int) ≤ 1 ∧ (1 : Int) = nesting 5 demoCalls) ∧ nesting 7 demoCalls = 0 :=
  ⟨(C16_tracker_invariant Statics.zero demoCalls _
      (LockManager.nesting_take_lt demoCalls (by decide)) rfl).1 5
      { ss_ := ⟨10, 0, 0, 0, 0⟩, acquired_ts_ := 0, depth_ := 1 } rfl,
   (C16_tracker_invariant Statics.zero demoCalls _
      (LockManager.nesting_take_lt demoCalls (by decide)) rfl).2.1 7 rfl⟩

/-! ## Causality of the sections -/

namespace LockManager

theorem LockState.acquire_start_le (pc : Nat → Nat) (ls : LockState) (l : mtrace_lock_entry)
    (h : ls.depth_ = 0 ∨ ls.ss_.start ≤ l.h.ts) : (ls.acquire pc l).ss_.start ≤ l.h.ts := by
  unfold LockState.acquire
  by_cases hd : ls.depth_ = 0
  · simp [hd]
  · rcases h with h | h
    · exact absurd h hd
    · simp [hd, h]

theorem LockState.acquired_start_le (ls : LockState) (l : mtrace_lock_entry)
    (h : ls.ss_.start ≤ l.h.ts) : (ls.acquired l).ss_.start ≤ l.h.ts := by
  unfold LockState.acquired
  by_cases hd : ls.acquired_ts_ = 0
  · simp [hd]
  · simp [hd, h]

theorem LockState.release_start (ls : LockState) (l : mtrace_lock_entry) :
    (ls.release l).ss_.start = ls.ss_.start := by
  simp only [LockState.release]
  split <;> rfl

theorem LockState.release_end (ls : LockState) (l : mtrace_lock_entry)
    (h : (ls.release l).depth_ = 0) : (ls.release l).ss_.end_ = l.h.ts := by
  rw [LockState.release_depth] at h
  simp [LockState.release, h]

/-- One call that returns, on a table whose sections all start no later than
the call's event, leaves such a table and returns only sections with
`start ≤ end`. -/
theorem step_starts (g : Statics) (lm : LockManager) (c : TrackerCall)
    (r : Statics × LockManager × List (Option SerialSection))
    (hinv : ∀ id ls, lm.state_ id = some ls → ls.ss_.start ≤ c.ts)
    (h : feed g lm [c] = .ok r) :
    (∀ id ls, r.2.1.state_ id = some ls → ls.ss_.start ≤ c.ts)
      ∧ ∀ ss, some ss ∈ r.2.2 → ss.start ≤ ss.end_ := by
  have hset : ∀ (k : Nat) (v : LockState), v.ss_.start ≤ c.ts →
      ∀ id ls, (lm.state_.set k v) id = some ls → ls.ss_.start ≤ c.ts := by
    intro k v hv id ls hls
    by_cases hid : id = k
    · subst hid
      rw [LockStateTable.set_same] at hls
      injection hls with hls
      rw [← hls]; exact hv
    · rw [LockStateTable.set_other _ _ _ _ hid] at hls
      exact hinv id ls hls
  rcases feed_single_cases g lm c r h with
    ⟨pc, u, l, hc, hst, hr⟩ | ⟨pc, u, l, ls, hc, hst, hr⟩ | ⟨l, hc, hst, _, hr⟩
    | ⟨l, ls, hc, hst, hr⟩ | ⟨l, ls, hc, hst, hd, hr⟩ | ⟨l, ls, hc, hst, hd, hr⟩
  · subst hc; subst hr
    refine ⟨hset _ _ (LockState.acquire_start_le pc _ l (Or.inl rfl)), ?_⟩
    intro ss hss; exact absurd hss (List.not_mem_nil _)
  · subst hc; subst hr
    refine ⟨hset _ _ (LockState.acquire_start_le pc ls l (Or.inr (hinv _ _ hst))), ?_⟩
    intro ss hss; exact absurd hss (List.not_mem_nil _)
  · subst hc; subst hr
    refine ⟨hinv, ?_⟩
    intro ss hss; exact absurd hss (List.not_mem_nil _)
  · subst hc; subst hr
    refine ⟨hset _ _ (LockState.acquired_start_le ls l (hinv _ _ hst)), ?_⟩
    intro ss hss; exact absurd hss (List.not_mem_nil _)
  · subst hc; subst hr
    constructor
    · intro id ls' hls'
      by_cases hid : id = l.lock
      · subst hid
        rw [show ({ state_ := lm.state_.erase l.lock } : LockManager).state_ l.lock = none from
          LockStateTable.erase_same _ _] at hls'
        exact Option.noConfusion hls'
      · rw [show ({ state_ := lm.state_.erase l.lock } : LockManager).state_ id = lm.state_ id
          from LockStateTable.erase_other _ _ _ hid] at hls'
        exact hinv id ls' hls'
    · intro ss hss
      rw [List.mem_singleton] at hss
      injection hss with hss
      rw [hss, LockState.release_start, LockState.release_end ls l hd]
      exact hinv _ _ hst
  · subst hc; subst hr
    refine ⟨hset _ _ (by rw [LockState.release_start]; exact hinv _ _ hst), ?_⟩
    intro ss hss
    rw [List.mem_singleton] at hss
    exact Option.noConfusion hss

theorem feed_causal (cs : List TrackerCall) (g : Statics) (lm : LockManager)
    (r : Statics × LockManager × List (Option SerialSection))
    (hinv : ∀ id ls, lm.state_ id = some ls → ∀ c ∈ cs, ls.ss_.start ≤ c.ts)
    (hs : (cs.map TrackerCall.ts).Sorted (· ≤ ·))
    (h : feed g lm cs = .ok r) :
    ∀ ss, some ss ∈ r.2.2 → ss.start ≤ ss.end_ := by
  induction cs generalizing g lm r with
  | nil =>
    rw [feed_nil] at h
    injection h with h
    subst h
    intro ss hss; exact absurd hss (List.not_mem_nil _)
  | cons c cs ih =>
    obtain ⟨r1, r2, h1, h2, hr⟩ := feed_cons_inv g lm c cs r h
    rw [List.map_cons, List.sorted_cons] at hs
    have hstep := step_starts g lm c r1
      (fun id ls hls => hinv id ls hls c (List.mem_cons_self _ _)) h1
    have hrest := ih r1.1 r1.2.1 r2
      (fun id ls hls c' hc' =>
        le_trans (hstep.1 id ls hls) (hs.1 c'.ts (List.mem_map_of_mem _ hc')))
      hs.2 h2
    subst hr
    intro ss hss
    rcases List.mem_append.mp hss with hss | hss
    · exact hstep.2 ss hss
    · exact hrest ss hss

end LockManager

/-- C18.  Causality.  Start from a new `LockManager` and let the calls `cs`,
whose event timestamps are non-decreasing in arrival order, all return (in
particular every release found its lock in the table).  Then every section
returned by a release has `start ≤ end`, and `add` of such a section to any
statistics record returns: the causality `die` is not reached. -/
theorem C18_sections_causal (g : Statics) (cs : List TrackerCall)
    (r : Statics × LockManager × List (Option SerialSection))
    (hs : (cs.map TrackerCall.ts).Sorted (· ≤ ·))
    (h : LockManager.feed g LockManager.ctor cs = .ok r) :
    ∀ ss, some ss ∈ r.2.2 →
      ss.start ≤ ss.end_
        ∧ ∀ st : SerialSections.SerialSectionStat, ∃ st1, st.add ss = .ok st1 := by
  intro ss hss
  have hle := LockManager.feed_causal cs g LockManager.ctor r
    (fun id ls hls => Option.noConfusion hls) hs h ss hss
  refine ⟨hle, fun st => ?_⟩
  by_cases hcpu : ss.acquire_cpu = ss.release_cpu
  · exact ⟨_, SerialSections.SerialSectionStat.add_same st ss hcpu hle⟩
  · exact ⟨_, SerialSections.SerialSectionStat.add_cross st ss hcpu⟩

/-- Witness for C18: the example trace has timestamps 10, 20, 30, 40, 50; the
section returned for lock 7 runs from 30 to 50. -/
theorem C18_sections_causal_witness :
    (30 : Nat) ≤ 50
      ∧ ∀ st : SerialSections.SerialSectionStat,
          ∃ st1, st.add ⟨30, 50, 1, 1, 0⟩ = .ok st1 :=
  C18_sections_causal Statics.zero demoCalls _ (by decide) rfl ⟨30, 50, 1, 1, 0⟩ (by decide)

/-! ## Independence of the locks -/

namespace LockManager

theorem feed_cons_ok (g : Statics) (lm : LockManager) (c : TrackerCall)
    (cs : List TrackerCall) (r1 r2 : Statics × LockManager × List (Option SerialSection))
    (h1 : feed g lm [c] = .ok r1) (h2 : feed r1.1 r1.2.1 cs = .ok r2) :
    feed g lm (c :: cs) = .ok (r2.1, r2.2.1, r1.2.2 ++ r2.2.2) := by
  have happ := feed_append [c] cs g lm
  rw [List.singleton_append, h1, Outcome.bind_ok, h2, Outcome.bind_ok] at happ
  exact happ

/-- A call that returns writes no entry but that of its own lock, and does
not lower the miss counter of `acquired`. -/
theorem step_frame (g : Statics) (lm : LockManager) (c : TrackerCall)
    (r : Statics × LockManager × List (Option SerialSection))
    (h : feed g lm [c] = .ok r) :
    (∀ B, B ≠ c.lock → r.2.1.state_ B = lm.state_ B)
      ∧ g.acquired_misses ≤ r.1.acquired_misses := by
  rcases feed_single_cases g lm c r h with
    ⟨pc, u, l, hc, hst, hr⟩ | ⟨pc, u, l, ls, hc, hst, hr⟩ | ⟨l, hc, hst, _, hr⟩
    | ⟨l, ls, hc, hst, hr⟩ | ⟨l, ls, hc, hst, hd, hr⟩ | ⟨l, ls, hc, hst, hd, hr⟩
  · subst hc; subst hr
    exact ⟨fun B hB => LockStateTable.set_other _ _ _ _ hB, le_refl _⟩
  · subst hc; subst hr
    exact ⟨fun B hB => LockStateTable.set_other _ _ _ _ hB, le_refl _⟩
  · subst hc; subst hr
    exact ⟨fun B _ => rfl, by show g.acquired_misses ≤ g.acquired_misses + 1; omega⟩
  · subst hc; subst hr
    exact ⟨fun B hB => LockStateTable.set_other _ _ _ _ hB, le_refl _⟩
  · subst hc; subst hr
    exact ⟨fun B hB => LockStateTable.erase_other _ _ _ hB, le_refl _⟩
  · subst hc; subst hr
    exact ⟨fun B hB => LockStateTable.set_other _ _ _ _ hB, le_refl _⟩

/-- A call that returns on one manager also returns, with the same results,
on a manager that holds the same state for the call's lock and has counted
no more `acquired` misses; the call's lock ends in the same state on both. -/
theorem step_sim (g g2 : Statics) (lm lm2 : LockManager) (c : TrackerCall)
    (r : Statics × LockManager × List (Option SerialSection))
    (hagree : lm2.state_ c.lock = lm.state_ c.lock)
    (hg : g2.acquired_misses ≤ g.acquired_misses)
    (h : feed g lm [c] = .ok r) :
    ∃ r', feed g2 lm2 [c] = .ok r' ∧ r'.2.2 = r.2.2
      ∧ r'.2.1.state_ c.lock = r.2.1.state_ c.lock
      ∧ r'.1.acquired_misses ≤ r.1.acquired_misses := by
  rcases feed_single_cases g lm c r h with
    ⟨pc, u, l, hc, hst, hr⟩ | ⟨pc, u, l, ls, hc, hst, hr⟩ | ⟨l, hc, hst, hm, hr⟩
    | ⟨l, ls, hc, hst, hr⟩ | ⟨l, ls, hc, hst, hd, hr⟩ | ⟨l, ls, hc, hst, hd, hr⟩
  · subst hc; subst hr
    have h2 : lm2.state_ l.lock = none := by rw [← hst]; exact hagree
    refine ⟨(g2, { state_ := lm2.state_.set l.lock ((LockState.ctor u).acquire pc l) }, []),
      ?_, rfl, ?_, hg⟩
    · rw [feed_single_acquire]
      simp only [acquire, h2, LockStateTable.insert, Bool.not_true, Bool.false_eq_true,
        if_false, Outcome.bind_ok, LockStateTable.set_set]
    · show (lm2.state_.set l.lock _) l.lock = (lm.state_.set l.lock _) l.lock
      rw [LockStateTable.set_same, LockStateTable.set_same]
  · subst hc; subst hr
    have h2 : lm2.state_ l.lock = some ls := by rw [← hst]; exact hagree
    refine ⟨(g2, { state_ := lm2.state_.set l.lock (ls.acquire pc l) }, []), ?_, rfl, ?_, hg⟩
    · rw [feed_single_acquire]
      simp only [acquire, h2, Outcome.bind_ok]
    · show (lm2.state_.set l.lock _) l.lock = (lm.state_.set l.lock _) l.lock
      rw [LockStateTable.set_same, LockStateTable.set_same]
  · subst hc; subst hr
    have h2 : lm2.state_ l.lock = none := by rw [← hst]; exact hagree
    have hm2 : ¬ (g2.acquired_misses + 1 ≥ 10) := by omega
    refine ⟨({ g2 with acquired_misses := g2.acquired_misses + 1 }, lm2, []), ?_, rfl, hagree,
      ?_⟩
    · rw [feed_single_acquired]
      simp only [acquired, h2, hm2, if_false, Outcome.bind_ok]
    · show g2.acquired_misses + 1 ≤ g.acquired_misses + 1
      omega
  · subst hc; subst hr
    have h2 : lm2.state_ l.lock = some ls := by rw [← hst]; exact hagree
    refine ⟨(g2, { state_ := lm2.state_.set l.lock (ls.acquired l) }, []), ?_, rfl, ?_, hg⟩
    · rw [feed_single_acquired]
      simp only [acquired, h2, Outcome.bind_ok]
    · show (lm2.state_.set l.lock _) l.lock = (lm.state_.set l.lock _) l.lock
      rw [LockStateTable.set_same, LockStateTable.set_same]
  · subst hc; subst hr
    have h2 : lm2.state_ l.lock = some ls := by rw [← hst]; exact hagree
    refine ⟨(g2, { state_ := lm2.state_.erase l.lock }, [some (ls.release l).ss_]), ?_, rfl,
      ?_, hg⟩
    · rw [feed_single_release]
      simp only [release, h2, hd, if_true, Outcome.bind_ok]
    · show (lm2.state_.erase l.lock) l.lock = (lm.state_.erase l.lock) l.lock
      rw [LockStateTable.erase_same, LockStateTable.erase_same]
  · subst hc; subst hr
    have h2 : lm2.state_ l.lock = some ls := by rw [← hst]; exact hagree
    refine ⟨(g2, { state_ := lm2.state_.set l.lock (ls.release l) }, [none]), ?_, rfl, ?_, hg⟩
    · rw [feed_single_release]
      simp only [release, h2, hd, if_false, Outcome.bind_ok]
    · show (lm2.state_.set l.lock _) l.lock = (lm.state_.set l.lock _) l.lock
      rw [LockStateTable.set_same, LockStateTable.set_same]

theorem step_outputs (A : Nat) (g : Statics) (lm : LockManager) (c : TrackerCall)
    (cs : List TrackerCall) (outs : List (Option SerialSection))
    (r : Statics × LockManager × List (Option SerialSection))
    (h : feed g lm [c] = .ok r) :
    outputsWithout A (c :: cs) (r.2.2 ++ outs)
      = (if c.lock ≠ A then r.2.2 else []) ++ outputsWithout A cs outs := by
  rcases feed_single_cases g lm c r h with
    ⟨pc, u, l, hc, hst, hr⟩ | ⟨pc, u, l, ls, hc, hst, hr⟩ | ⟨l, hc, hst, _, hr⟩
    | ⟨l, ls, hc, hst, hr⟩ | ⟨l, ls, hc, hst, hd, hr⟩ | ⟨l, ls, hc, hst, hd, hr⟩
  all_goals subst hc; subst hr
  all_goals by_cases hA : l.lock = A <;> simp [outputsWithout, TrackerCall.lock, hA]

theorem withoutLock_cons (A : Nat) (c : TrackerCall) (cs : List TrackerCall) :
    withoutLock A (c :: cs)
      = if c.lock ≠ A then c :: withoutLock A cs else withoutLock A cs := by
  by_cases hA : c.lock = A <;> simp [withoutLock, List.filter_cons, hA]

theorem feed_without (A : Nat) (cs : List TrackerCall) (g g2 : Statics)
    (lm lm2 : LockManager) (r : Statics × LockManager × List (Option SerialSection))
    (hagree : ∀ B, B ≠ A → lm2.state_ B = lm.state_ B)
    (hg : g2.acquired_misses ≤ g.acquired_misses)
    (h : feed g lm cs = .ok r) :
    ∃ r2, feed g2 lm2 (withoutLock A cs) = .ok r2
      ∧ r2.2.2 = outputsWithout A cs r.2.2
      ∧ (∀ B, B ≠ A → r2.2.1.state_ B = r.2.1.state_ B)
      ∧ r2.1.acquired_misses ≤ r.1.acquired_misses := by
  induction cs generalizing g g2 lm lm2 r with
  | nil =>
    rw [feed_nil] at h
    injection h with h
    subst h
    exact ⟨(g2, lm2, []), rfl, rfl, hagree, hg⟩
  | cons c cs ih =>
    obtain ⟨r1, r2, h1, h2, hr⟩ := feed_cons_inv g lm c cs r h
    have hframe := step_frame g lm c r1 h1
    have hout := step_outputs A g lm c cs r2.2.2 r1 h1
    subst hr
    by_cases hA : c.lock = A
    · have hagree1 : ∀ B, B ≠ A → lm2.state_ B = r1.2.1.state_ B := by
        intro B hB
        rw [hframe.1 B (by rw [hA]; exact hB)]
        exact hagree B hB
      obtain ⟨r2', hf, ho, hs, hm⟩ := ih r1.1 g2 r1.2.1 lm2 r2 hagree1
        (le_trans hg hframe.2) h2
      refine ⟨r2', ?_, ?_, hs, hm⟩
      · rw [withoutLock_cons]
        simp only [hA, ne_eq, not_true_eq_false, if_false]
        exact hf
      · show r2'.2.2 = outputsWithout A (c :: cs) (r1.2.2 ++ r2.2.2)
        rw [hout]
        simp only [hA, ne_eq, not_true_eq_false, if_false, List.nil_append]
        exact ho
    · obtain ⟨r1', hf1, ho1, hs1, hm1⟩ := step_sim g g2 lm lm2 c r1 (hagree _ hA) hg h1
      have hframe2 := step_frame g2 lm2 c r1' hf1
      have hagree1 : ∀ B, B ≠ A → r1'.2.1.state_ B = r1.2.1.state_ B := by
        intro B hB
        by_cases hBc : B = c.lock
        · rw [hBc]; exact hs1
        · rw [hframe2.1 B hBc, hframe.1 B hBc]
          exact hagree B hB
      obtain ⟨r2', hf, ho, hs, hm⟩ := ih r1.1 r1'.1 r1.2.1 r1'.2.1 r2 hagree1 hm1 h2
      refine ⟨(r2'.1, r2'.2.1, r1'.2.2 ++ r2'.2.2), ?_, ?_, hs, hm⟩
      · rw [withoutLock_cons]
        simp only [hA, ne_eq, not_false_eq_true, if_true]
        exact feed_cons_ok g2 lm2 c _ r1' r2' hf1 hf
      · show r1'.2.2 ++ r2'.2.2 = outputsWithout A (c :: cs) (r1.2.2 ++ r2.2.2)
        rw [hout]
        simp only [hA, ne_eq, not_false_eq_true, if_true]
        rw [ho1, ho]

end LockManager

/-- Counterexample to C19 as stated: on a new manager at program start, the
nine unmatched `acquired` events on lock 4 each return and leave the entry
of lock 5 alone, but they use up the miss budget that the locks share: the
unmatched `acquired` event on lock 5 is then the tenth miss and ends the run,
so the section of lock 5 is never returned.  Without the events on lock 4
the same calls on lock 5 all return and the release returns the section from
10 to 20. -/
theorem C19_counterexample_shared_budget :
    LockManager.releaseResults Statics.zero LockManager.ctor noisyCalls
        = .die "acquired: acquired too many missing locks"
      ∧ LockManager.releaseResults Statics.zero LockManager.ctor (withoutLock 4 noisyCalls)
        = .ok [some ⟨10, 20, 0, 0, 0⟩] := by
  decide

/-- C19, amended.  Let `A` and `B` be different locks.  An acquire call for
`A` returns and leaves the entry of `B` (present or not, with all its
fields) as it was; so does an acquired call for `A` that returns, and a
release call for `A` while `A` has a state.  For a sequence of calls that
all return (no call ends the run, which the miss counter shared by all
locks can cause), the sequence without the calls for `A` also returns all
its calls, its releases return what they returned in the full sequence, and
it ends with the same entry for `B`.  What the locks do share is the miss
counter: an acquired call for `A` that finds no state for `A` and returns
has counted one more miss. -/
theorem C19_locks_independent (A B : Nat) (hAB : A ≠ B) (g : Statics) (lm : LockManager) :
    (∀ pc u l, l.lock = A →
        ∃ lm1, LockManager.acquire pc u lm l = .ok lm1 ∧ lm1.state_ B = lm.state_ B)
      ∧ (∀ l g1 lm1, l.lock = A → LockManager.acquired g lm l = .ok (g1, lm1) →
          lm1.state_ B = lm.state_ B)
      ∧ (∀ l ls, l.lock = A → lm.state_ A = some ls →
          ∃ lm1 o, LockManager.release g lm l = .ok (g, lm1, o) ∧ lm1.state_ B = lm.state_ B)
      ∧ (∀ cs r, LockManager.feed g lm cs = .ok r →
          ∃ r2, LockManager.feed g lm (withoutLock A cs) = .ok r2
            ∧ r2.2.2 = outputsWithout A cs r.2.2
            ∧ r2.2.1.state_ B = r.2.1.state_ B)
      ∧ (∀ l g1 lm1, l.lock = A → lm.state_ A = none →
          LockManager.acquired g lm l = .ok (g1, lm1) →
            g1.acquired_misses = g.acquired_misses + 1) := by
  have hBA : B ≠ A := fun h => hAB h.symm
  refine ⟨?_, ?_, ?_, ?_, ?_⟩
  · intro pc u l hl
    have hB : B ≠ l.lock := by rw [hl]; exact hBA
    cases hst : lm.state_ l.lock with
    | none =>
      rw [LockManager.acquire_fresh pc u lm l hst]
      exact ⟨_, rfl, LockManager.LockStateTable.set_other _ _ _ _ hB⟩
    | some ls =>
      refine ⟨{ state_ := lm.state_.set l.lock (ls.acquire pc l) }, ?_,
        LockManager.LockStateTable.set_other _ _ _ _ hB⟩
      simp only [LockManager.acquire, hst]
  · intro l g1 lm1 hl h
    have hB : B ≠ l.lock := by rw [hl]; exact hBA
    have hfeed : LockManager.feed g lm [TrackerCall.acquired l] = .ok (g1, lm1, []) := by
      rw [LockManager.feed_single_acquired, h, Outcome.bind_ok]
    exact (LockManager.step_frame g lm _ _ hfeed).1 B hB
  · intro l ls hl hst
    have hB : B ≠ l.lock := by rw [hl]; exact hBA
    have hst' : lm.state_ l.lock = some ls := by rw [hl]; exact hst
    by_cases hd : (ls.release l).depth_ = 0
    · refine ⟨{ state_ := lm.state_.erase l.lock }, some (ls.release l).ss_, ?_,
        LockManager.LockStateTable.erase_other _ _ _ hB⟩
      simp only [LockManager.release, hst', hd, if_true]
    · refine ⟨{ state_ := lm.state_.set l.lock (ls.release l) }, none, ?_,
        LockManager.LockStateTable.set_other _ _ _ _ hB⟩
      simp only [LockManager.release, hst', hd, if_false]
  · intro cs r h
    obtain ⟨r2, hf, ho, hs, _⟩ := LockManager.feed_without A cs g g lm lm r
      (fun _ _ => rfl) (le_refl _) h
    exact ⟨r2, hf, ho, hs B hBA⟩
  · intro l g1 lm1 hl hst h
    have hst' : lm.state_ l.lock = none := by rw [hl]; exact hst
    by_cases hm : g.acquired_misses + 1 ≥ 10
    · simp only [LockManager.acquired, hst', hm, if_true] at h
      exact Outcome.noConfusion h
    · simp only [LockManager.acquired, hst', hm, if_false] at h
      injection h with h
      injection h with hg _
      rw [← hg]

/-- Witness for C19: in the example trace, without the three calls for lock
5, the release of lock 7 still returns the section from 30 to 50 and lock 7
ends without state. -/
theorem C19_locks_independent_witness :
    ∃ r2, LockManager.feed Statics.zero LockManager.ctor (withoutLock 5 demoCalls) = .ok r2
      ∧ r2.2.2 = outputsWithout 5 demoCalls [none, some ⟨30, 50, 1, 1, 0⟩]
      ∧ r2.2.1.state_ 7 = none :=
  (C19_locks_independent 5 7 (by decide) Statics.zero LockManager.ctor).2.2.2.1 demoCalls _ rfl
